import Mathlib

/-!
# nyushi/install: a shallow embedding of the installer and its properties

The Go package `install` (`install.go`) and its command line (`cmd/inst/main.go`)
are embedded as pure functions over an explicit `World`:

* `World.fs` maps a path name to the node stored under it (a regular file with
  its bytes, owner and permission bits, or a directory with owner and
  permission bits).  A node is stored under its clean absolute name
  (`CleanPath`): that name is the one spelling of the file, and the statements
  about files take their path arguments in that form.  Symbolic links and hard
  links are outside the model.
* `World.log` is the sequence of library and system calls attempted so far.  It
  is ghost state: it lets a statement say that a call was or was not made.
* `Env` holds what the process cannot control: its pid, umask and credentials,
  the user and group directories, and a fault oracle saying which system calls
  are refused for reasons other than the state of `fs` (permission, I/O error,
  a full device).  The oracle is a function of the arguments of a call: the
  same call is refused every time or never.

Library functions (`path.Join`, `filepath.Base`, `filepath.Dir`, `strconv.Atoi`,
`strconv.ParseInt`, `bufio`, `io.Copy`, `os.*`) are modelled after their
behaviour on a Linux host.  Permission bits are the nine `rwx` bits
(`FileMode.Perm`); the set-user-ID, set-group-ID and sticky bits are outside
the model, so a new node belongs to the effective uid and gid of the process.
`chown` takes the low 32 bits of an id, and the id `-1` leaves the owner,
respectively the group, as it is.
-/

namespace Install

/-! ## Paths -/

abbrev Path := String

abbrev Byte := Fin 256

/-- Components of a path between slashes (empty components included). -/
def splitSlash : List Char → List (List Char)
  | [] => [[]]
  | c :: cs =>
    match splitSlash cs with
    | [] => [[]]
    | x :: xs => if c = '/' then [] :: x :: xs else (c :: x) :: xs

/-- One step of `path.Clean` on the stack of components kept so far (top first):
empty and `.` components are dropped, `..` removes the component before it when
there is one to remove. -/
def cleanStep (rooted : Bool) (acc : List (List Char)) (comp : List Char) :
    List (List Char) :=
  if comp = [] ∨ comp = ['.'] then acc
  else if comp = ['.', '.'] then
    match acc with
    | [] => if rooted then [] else [comp]
    | top :: rest => if top = ['.', '.'] then comp :: acc else rest
  else comp :: acc

/-- Components joined by single slashes. -/
def joinSlash : List (List Char) → List Char
  | [] => []
  | [x] => x
  | x :: y :: rest => x ++ '/' :: joinSlash (y :: rest)

/-- Go `path.Clean` (and `filepath.Clean` on Unix). -/
def Clean (p : Path) : Path :=
  if p = "" then "."
  else
    let rooted : Bool := p.toList.head? = some '/'
    let comps := ((splitSlash p.toList).foldl (cleanStep rooted) []).reverse
    let body := joinSlash comps
    if rooted then String.mk ('/' :: body)
    else if body = [] then "."
    else String.mk body

/-- Go `filepath.Base`: the last element of the path, trailing slashes removed. -/
def Base (p : Path) : Path :=
  if p = "" then "."
  else
    let s := p.toList.reverse.dropWhile (fun c => c = '/')
    let last := (s.takeWhile (fun c => c ≠ '/')).reverse
    if last = [] then "/" else String.mk last

/-- Go `filepath.Dir`: everything up to the last slash, cleaned. -/
def Dir (p : Path) : Path :=
  Clean (String.mk (p.toList.reverse.dropWhile (fun c => c ≠ '/')).reverse)

/-- Go `path.Join` of two elements. -/
def Join (a b : Path) : Path :=
  if a = "" then (if b = "" then "" else Clean b)
  else Clean (a ++ "/" ++ b)

/-- A clean absolute path name: it starts at the root and `path.Clean` leaves
it as it is.  Such a name is the one spelling of the file it names. -/
def CleanPath (p : Path) : Bool :=
  decide (p.toList.head? = some '/') && decide (Clean p = p)

/-- The part of a name after its last slash. -/
def lastSeg (l : List Char) : List Char :=
  (l.reverse.takeWhile (fun c => c ≠ '/')).reverse

/-! ## Numbers in strings -/

/-- Value of a run of digits in the given base, `none` when a character is not
a digit of that base. -/
def digitsValue (base : Nat) : List Char → Nat → Option Nat
  | [], acc => some acc
  | c :: cs, acc =>
    if '0' ≤ c ∧ c.toNat < 48 + base then digitsValue base cs (acc * base + (c.toNat - 48))
    else none

/-- Sign and digits of a numeral: `none` on a syntax error. -/
def signedValue (base : Nat) (s : String) : Option (Bool × Nat) :=
  match s.toList with
  | [] => none
  | c :: cs =>
    if c = '-' then
      (if cs = [] then none else (digitsValue base cs 0).map (fun n => (true, n)))
    else if c = '+' then
      (if cs = [] then none else (digitsValue base cs 0).map (fun n => (false, n)))
    else (digitsValue base (c :: cs) 0).map (fun n => (false, n))

/-- Go `strconv.Atoi` on a 64-bit host with the error dropped, as `UIDInt` and
`GIDInt` use it: `0` on a syntax error, the nearest bound on a range error. -/
def Atoi (s : String) : Int :=
  match signedValue 10 s with
  | none => 0
  | some (false, n) => if n ≥ 2 ^ 63 then 2 ^ 63 - 1 else (n : Int)
  | some (true, n) => if n > 2 ^ 63 then -(2 ^ 63) else -(n : Int)

/-- Go `strconv.ParseInt(s, 8, 32)`: `none` when it returns an error (syntax or
range). -/
def ParseIntOctal32 (s : String) : Option Int :=
  match signedValue 8 s with
  | none => none
  | some (false, n) => if n ≥ 2 ^ 31 then none else some (n : Int)
  | some (true, n) => if n > 2 ^ 31 then none else some (-(n : Int))

/-! ## File system, environment, log -/

/-- What is stored under a path name. -/
inductive Node where
  | file (data : List Byte) (uid gid : Int) (perm : Nat)
  | dir (uid gid : Int) (perm : Nat)
  deriving DecidableEq, Repr

/-- Whether the node is a directory (`FileInfo.IsDir`). -/
def Node.isDir : Node → Bool
  | .dir _ _ _ => true
  | .file _ _ _ _ => false

/-- The id that `chown` leaves on a node: the system call takes the low 32
bits of the id it is passed, and all ones (the id `-1`) means no change. -/
def chownId (id old : Int) : Int :=
  if id % 4294967296 = 4294967295 then old else id % 4294967296

/-- A node after a `chown` with the given ids. -/
def Node.withOwner (uid gid : Int) : Node → Node
  | .file d u g m => .file d (chownId uid u) (chownId gid g) m
  | .dir u g m => .dir (chownId uid u) (chownId gid g) m

/-- A node with new permission bits. -/
def Node.withPerm (perm : Nat) : Node → Node
  | .file d u g _ => .file d u g perm
  | .dir u g _ => .dir u g perm

/-- Calls the program makes on its surroundings. -/
inductive Event where
  | lookupUser (name : String)
  | lookupGroup (name : String)
  | currentUser
  | stat (p : Path)
  | openRead (p : Path)
  | create (p : Path)
  | write (p : Path) (n : Nat)
  | chown (p : Path) (uid gid : Int)
  | chmod (p : Path) (mode : Nat)
  | rename (old new : Path)
  | mkdir (p : Path) (mode : Nat)
  | removeAll (p : Path)
  | callInstallFile (src dst : Path)
  | callInstallDir (dst : Path)
  deriving DecidableEq, Repr

/-- The record `os/user.User` as far as the installer reads it. -/
structure User where
  Uid : String
  Gid : String
  deriving DecidableEq, Repr

/-- The record `group.Group` as far as the installer reads it. -/
structure Group where
  Gid : String
  deriving DecidableEq, Repr

/-- The surroundings of the process. -/
structure Env where
  /-- Process id, `os.Getpid()` -/
  pid : Nat
  /-- File mode creation mask -/
  umask : Nat
  /-- Effective uid, owner of what the process creates -/
  euid : Int
  /-- Effective gid -/
  egid : Int
  /-- User directory `user.Lookup`, `none` when it returns an error -/
  lookupUser : String → Option User
  /-- Group directory `group.Lookup`, `none` when it returns an error -/
  lookupGroup : String → Option Group
  /-- Identity of the process `user.Current`, `none` when it returns an error -/
  currentUser : Option User
  /-- Whether `stat` fails with an error other than not-exist -/
  statFails : Path → Bool
  /-- Whether opening for reading is refused -/
  openFails : Path → Bool
  /-- Whether creating or truncating is refused -/
  createFails : Path → Bool
  /-- Reading the file fails once this many bytes have been delivered -/
  readFailsAt : Path → Option Nat
  /-- The file cannot grow beyond this many bytes -/
  writeLimit : Path → Option Nat
  /-- Whether `chown` is refused -/
  chownFails : Path → Int → Int → Bool
  /-- Whether `chmod` is refused -/
  chmodFails : Path → Nat → Bool
  /-- Whether `rename` is refused -/
  renameFails : Path → Path → Bool
  /-- Whether `mkdir` is refused -/
  mkdirFails : Path → Bool
  /-- Whether removal is refused -/
  removeFails : Path → Bool

/-- File system and call log. -/
structure World where
  fs : Path → Option Node
  log : List Event

/-- Append a call to the log. -/
def World.record (w : World) (e : Event) : World :=
  { w with log := w.log ++ [e] }

/-- Store a node under a name. -/
def World.setNode (w : World) (p : Path) (n : Node) : World :=
  { w with fs := fun q => if q = p then some n else w.fs q }

/-- Remove a name. -/
def World.erase (w : World) (p : Path) : World :=
  { w with fs := fun q => if q = p then none else w.fs q }

/-- Whether `q` names something below directory `p`. -/
def isUnder (p q : Path) : Bool :=
  (p.toList ++ ['/']).isPrefixOf q.toList

/-- The nine permission bits of a mode (`FileMode.Perm`). -/
def Perm (mode : Nat) : Nat := mode % 512

/-- Permission bits a new node gets: the requested ones minus the umask. -/
def createPerm (env : Env) (mode : Nat) : Nat :=
  Perm mode &&& (511 - Perm env.umask)

/-! ## System calls -/

/-- Outcome of `os.Stat`. -/
inductive StatResult where
  | info (isDir : Bool)
  | notExist
  | failed
  deriving DecidableEq, Repr

/-- Whether a call on a name is refused before the file system is looked at:
by the fault oracle, or because the name is empty (`ENOENT`). -/
def refused (oracle : Bool) (p : Path) : Bool := oracle || p == ""

/-- Whether the nearest existing ancestor of a name, among its first `n`
parents, is a regular file: looking the name up then fails with `ENOTDIR`. -/
def belowFile (w : World) : Nat → Path → Bool
  | 0, _ => false
  | n + 1, p =>
    match w.fs (Dir p) with
    | some (.file _ _ _ _) => true
    | some (.dir _ _ _) => false
    | none => belowFile w n (Dir p)

/-- Go `os.Stat`.  The empty name does not exist; a free name below a regular
file is an error other than not-exist. -/
def osStat (env : Env) (p : Path) (w : World) : World × StatResult :=
  let w1 := w.record (.stat p)
  if p = "" then (w1, .notExist)
  else if env.statFails p then (w1, .failed)
  else
    match w.fs p with
    | none => (w1, if belowFile w p.length p then .failed else .notExist)
    | some n => (w1, .info n.isDir)

/-- Go `os.Open`: `true` when the file was opened. -/
def osOpen (env : Env) (p : Path) (w : World) : World × Bool :=
  let w1 := w.record (.openRead p)
  if refused (env.openFails p) p then (w1, false)
  else (w1, (w.fs p).isSome)

/-- Go `os.Create` (`O_RDWR|O_CREATE|O_TRUNC`, mode 0666): an existing file is
truncated and keeps owner and mode, a new one belongs to the process.  `true`
when the file was created or truncated. -/
def osCreate (env : Env) (p : Path) (w : World) : World × Bool :=
  let w1 := w.record (.create p)
  if refused (env.createFails p) p then (w1, false)
  else
    match w.fs p with
    | some (.dir _ _ _) => (w1, false)
    | some (.file _ u g m) => (w1.setNode p (.file [] u g m), true)
    | none =>
      match w.fs (Dir p) with
      | some (.dir _ _ _) => (w1.setNode p (.file [] env.euid env.egid (createPerm env 0o666)), true)
      | _ => (w1, false)

/-- Reading a file to its end: the bytes delivered and whether the read ended
in an error.  A directory cannot be read. -/
def fileRead (env : Env) (p : Path) (w : World) : List Byte × Bool :=
  match w.fs p with
  | some (.file d _ _ _) =>
    match env.readFailsAt p with
    | some n => if n ≤ d.length then (d.take n, true) else (d, false)
    | none => (d, false)
  | _ => ([], true)

/-- Writing bytes at the end of a file: what fits below the limit is written;
`true` when the write returned an error. -/
def fileWrite (env : Env) (p : Path) (c : List Byte) (w : World) : World × Bool :=
  let w1 := w.record (.write p c.length)
  match w.fs p with
  | some (.file d u g m) =>
    match env.writeLimit p with
    | none => (w1.setNode p (.file (d ++ c) u g m), false)
    | some q =>
      if d.length + c.length ≤ q then (w1.setNode p (.file (d ++ c) u g m), false)
      else (w1.setNode p (.file (d ++ c.take (q - d.length)) u g m), true)
  | _ => (w1, true)

/-- Go `File.Chown` / `os.Chown`: `true` when it succeeded.  The log keeps the
ids as the program passed them, the node gets what the system call makes of
them (`chownId`). -/
def osChown (env : Env) (p : Path) (uid gid : Int) (w : World) : World × Bool :=
  let w1 := w.record (.chown p uid gid)
  if refused (env.chownFails p uid gid) p then (w1, false)
  else
    match w.fs p with
    | none => (w1, false)
    | some n => (w1.setNode p (n.withOwner uid gid), true)

/-- Go `File.Chmod` / `os.Chmod`: `true` when it succeeded. -/
def osChmod (env : Env) (p : Path) (mode : Nat) (w : World) : World × Bool :=
  let w1 := w.record (.chmod p mode)
  if refused (env.chmodFails p mode) p then (w1, false)
  else
    match w.fs p with
    | none => (w1, false)
    | some n => (w1.setNode p (n.withPerm (Perm mode)), true)

/-- Go `os.Rename` of a regular file: it replaces a file under the new name, not a
directory, and the new name must lie in an existing directory.  `true` when it
succeeded. -/
def osRename (env : Env) (old new : Path) (w : World) : World × Bool :=
  let w1 := w.record (.rename old new)
  if refused (refused (env.renameFails old new) old) new then (w1, false)
  else
    match w.fs old with
    | some (.file d u g m) =>
      match w.fs new with
      | some (.dir _ _ _) => (w1, false)
      | _ =>
        match w.fs (Dir new) with
        | some (.dir _ _ _) =>
          (if old = new then w1 else (w1.setNode new (.file d u g m)).erase old, true)
        | _ => (w1, false)
    | _ => (w1, false)

/-- Go `os.Mkdir`: the name must be free and its parent an existing directory; the
new directory belongs to the process and gets the mode minus the umask.  `true`
when it succeeded. -/
def osMkdir (env : Env) (p : Path) (mode : Nat) (w : World) : World × Bool :=
  let w1 := w.record (.mkdir p mode)
  if refused (env.mkdirFails p) p then (w1, false)
  else
    match w.fs p with
    | some _ => (w1, false)
    | none =>
      match w.fs (Dir p) with
      | some (.dir _ _ _) => (w1.setNode p (.dir env.euid env.egid (createPerm env mode)), true)
      | _ => (w1, false)

/-- Go `os.RemoveAll`, its error dropped as the installer drops it: a file is
unlinked, a directory goes with everything below it; on the empty name it does
nothing. -/
def osRemoveAll (env : Env) (p : Path) (w : World) : World :=
  let w1 := w.record (.removeAll p)
  if refused (env.removeFails p) p then w1
  else
    match w.fs p with
    | none => w1
    | some (.file _ _ _ _) => w1.erase p
    | some (.dir _ _ _) =>
      { w1 with fs := fun q => if q = p ∨ isUnder p q then none else w.fs q }

/-! ## Buffered copy -/

/-- Go `io.Copy(bw, br)` from a `bufio.Reader` on the source file into a
`bufio.Writer` on the temporary file.  The buffer of `bw` is empty when the
copy starts, so `bufio.Writer.ReadFrom` hands the copy to the file underneath
(`os.File.ReadFrom`): the bytes read from the source are written to the
temporary file itself, and nothing stays in the buffer.  Result: the world, the
bytes left in the buffer of `bw` (none), and whether the copy returned an error
(a failed read or a failed write). -/
def ioCopy (env : Env) (src tmp : Path) (w : World) : World × List Byte × Bool :=
  let rd := fileRead env src w
  if rd.1 = [] then (w, [], rd.2)
  else
    let wr := fileWrite env tmp rd.1 w
    (wr.1, [], wr.2 || rd.2)

/-- Go `bufio.Writer.Flush`: the buffered bytes are written to the file; `true`
when it returned an error.  With an empty buffer nothing is written. -/
def bufFlush (env : Env) (tmp : Path) (pending : List Byte) (w : World) : World × Bool :=
  if pending = [] then (w, false) else fileWrite env tmp pending w

/-! ## install.go -/

/-- The struct `InstallOption`; `Mode` is `none` for a nil pointer. -/
structure InstallOption where
  Owner : String
  Group : String
  UID : String
  GID : String
  Mode : Option Nat
  deriving DecidableEq, Repr

/-- The zero value `InstallOption{}`. -/
def InstallOption.zero : InstallOption :=
  { Owner := "", Group := "", UID := "", GID := "", Mode := none }

/-- Errors the package returns, one constructor per `errors.New` / `fmt.Errorf`
site (and one for an error of `os.Stat` handed on unchanged). -/
inductive Err where
  | conflictOwnerUID
  | lookupUserFailed (name : String)
  | conflictGroupGID
  | lookupGroupFailed (name : String)
  | currentUserFailed
  | invalidOption (e : Err)
  | statFailed (dst : Path)
  | readSrcFailed (src : Path)
  | createTmpFailed (tmp : Path)
  | copyFailed (src tmp : Path)
  | chownFailed (p : Path) (uid gid : Int)
  | chmodFailed (p : Path) (mode : Nat)
  | renameFailed (tmp dst : Path)
  | statError (p : Path)
  | notADirectory (p : Path)
  | mkdirFailed (p : Path)
  | mkdirChownFailed (p : Path)
  | createDirectoryFailed (e : Err)
  | checkFailed (p : Path)
  deriving DecidableEq, Repr

/-- Method `UIDInt`. -/
def InstallOption.UIDInt (opt : InstallOption) : Int := Atoi opt.UID

/-- Method `GIDInt`. -/
def InstallOption.GIDInt (opt : InstallOption) : Int := Atoi opt.GID

/-- First block of `Prepare` (install.go 36-45): the owner name. -/
def prepareOwner (env : Env) (opt : InstallOption) (w : World) :
    World × InstallOption × Option Err :=
  if opt.Owner ≠ "" then
    if opt.UID ≠ "" then (w, opt, some .conflictOwnerUID)
    else
      match env.lookupUser opt.Owner with
      | none => (w.record (.lookupUser opt.Owner), opt, some (.lookupUserFailed opt.Owner))
      | some u => (w.record (.lookupUser opt.Owner), { opt with UID := u.Gid }, none)
  else (w, opt, none)

/-- Second block of `Prepare` (install.go 46-55): the group name. -/
def prepareGroup (env : Env) (opt : InstallOption) (w : World) :
    World × InstallOption × Option Err :=
  if opt.Group ≠ "" then
    if opt.GID ≠ "" then (w, opt, some .conflictGroupGID)
    else
      match env.lookupGroup opt.Group with
      | none => (w.record (.lookupGroup opt.Group), opt, some (.lookupGroupFailed opt.Group))
      | some g => (w.record (.lookupGroup opt.Group), { opt with GID := g.Gid }, none)
  else (w, opt, none)

/-- Name resolution of `Prepare` (install.go 36-55): owner, then group. -/
def prepareNames (env : Env) (opt : InstallOption) (w : World) :
    World × InstallOption × Option Err :=
  match prepareOwner env opt w with
  | (w1, o1, some e) => (w1, o1, some e)
  | (w1, o1, none) => prepareGroup env o1 w1

/-- Last block of `Prepare` (install.go 57-72): the identity of the process
fills what is still empty. -/
def prepareFallback (env : Env) (opt : InstallOption) (w : World) :
    World × InstallOption × Option Err :=
  if opt.UID ≠ "" ∧ opt.GID ≠ "" then (w, opt, none)
  else
    match env.currentUser with
    | none => (w.record .currentUser, opt, some .currentUserFailed)
    | some u =>
      let o1 := if opt.UID = "" then { opt with UID := u.Uid } else opt
      let o2 := if o1.GID = "" then { o1 with GID := u.Gid } else o1
      (w.record .currentUser, o2, none)

/-- Method `Prepare`: the world after it, the option as it leaves it, and the
error it returns. -/
def Prepare (env : Env) (opt : InstallOption) (w : World) :
    World × InstallOption × Option Err :=
  match prepareNames env opt w with
  | (w1, o1, some e) => (w1, o1, some e)
  | (w1, o1, none) => prepareFallback env o1 w1

/-- Function `tmpPath`. -/
def tmpPath (env : Env) (s : Path) : Path :=
  s ++ ".install." ++ toString env.pid

/-- What a call leaves behind: the world, the caller's option (`none` when the
caller passed nil) and the returned error. -/
structure Ret where
  world : World
  opt : Option InstallOption
  err : Option Err

/-- Effective destination of `InstallFile` (install.go 86-100) from the outcome
of the stat. -/
def effectiveDst (src d : Path) (st : StatResult) : Path :=
  if st = .info true then Join d (Base src) else d

/-- The chmod of `InstallFile` (install.go 130-134), made only when a mode is
configured. -/
def chmodIfSet (env : Env) (tmpDst : Path) (mode : Option Nat) (w : World) :
    World × Option Err :=
  match mode with
  | none => (w, none)
  | some m =>
    let r := osChmod env tmpDst m w
    if r.2 then (r.1, none) else (r.1, some (.chmodFailed tmpDst m))

/-- Part of `InstallFile` that runs with the temporary file in place
(install.go 117-139). -/
def installFileBody (env : Env) (src dst tmpDst : Path) (opt : InstallOption) (w : World) :
    World × Option Err :=
  let cp := ioCopy env src tmpDst w
  if cp.2.2 then (cp.1, some (.copyFailed src tmpDst))
  else
    let fl := bufFlush env tmpDst cp.2.1 cp.1
    let uid := opt.UIDInt
    let gid := opt.GIDInt
    let co := osChown env tmpDst uid gid fl.1
    if !co.2 then (co.1, some (.chownFailed tmpDst uid gid))
    else
      let cm := chmodIfSet env tmpDst opt.Mode co.1
      match cm.2 with
      | some e => (cm.1, some e)
      | none =>
        let rn := osRename env tmpDst dst cm.1
        if rn.2 then (rn.1, none) else (rn.1, some (.renameFailed tmpDst dst))

/-- Function `InstallFile`. -/
def InstallFile (env : Env) (src d : Path) (opt : Option InstallOption) (w : World) : Ret :=
  let pr := Prepare env (opt.getD InstallOption.zero) w
  let out := opt.map (fun _ => pr.2.1)
  match pr.2.2 with
  | some e => ⟨pr.1, out, some (.invalidOption e)⟩
  | none =>
    let st := osStat env d pr.1
    if st.2 = .failed then ⟨st.1, out, some (.statFailed d)⟩
    else
      let dst := effectiveDst src d st.2
      let tmpDst := tmpPath env dst
      let op := osOpen env src st.1
      if !op.2 then ⟨op.1, out, some (.readSrcFailed src)⟩
      else
        let cr := osCreate env tmpDst op.1
        if !cr.2 then ⟨cr.1, out, some (.createTmpFailed tmpDst)⟩
        else
          let body := installFileBody env src dst tmpDst pr.2.1 cr.1
          ⟨osRemoveAll env tmpDst body.1, out, body.2⟩

/-- Outcome of `checkPath`: the results `exists` and `isDir`, and whether `err`
is non-nil. -/
structure PathCheck where
  doesExist : Bool
  isDir : Bool
  failed : Bool
  deriving DecidableEq, Repr

/-- Function `checkPath`. -/
def checkPath (env : Env) (name : Path) (w : World) : World × PathCheck :=
  let st := osStat env name w
  match st.2 with
  | .failed => (st.1, ⟨false, false, true⟩)
  | .notExist => (st.1, ⟨false, false, false⟩)
  | .info isDir => (st.1, ⟨true, isDir, false⟩)

/-- Function `mkdirRec`; the recursion depth is bounded by `fuel`, and `none`
means the bound was reached. -/
def mkdirRec (env : Env) : Nat → Path → Nat → Int → Int → World → Option (World × Option Err)
  | 0, _, _, _, _, _ => none
  | fuel + 1, name, createMode, createUID, createGID, w =>
    let ck := checkPath env name w
    if ck.2.failed then some (ck.1, some (.statError name))
    else if ck.2.doesExist then
      (if !ck.2.isDir then some (ck.1, some (.notADirectory name)) else some (ck.1, none))
    else
      match mkdirRec env fuel (Dir name) createMode createUID createGID ck.1 with
      | none => none
      | some (w1, some e) => some (w1, some e)
      | some (w1, none) =>
        let mk := osMkdir env name createMode w1
        if !mk.2 then some (mk.1, some (.mkdirFailed name))
        else
          let co := osChown env name createUID createGID mk.1
          if !co.2 then some (co.1, some (.mkdirChownFailed name))
          else some (co.1, none)

/-- Variable `defaultModeDir`. -/
def defaultModeDir : Nat := 0o755

/-- The mkdir of `InstallDir` (install.go 211-215), made only when the name is
free. -/
def mkdirIfMissing (env : Env) (dst : Path) (mode : Nat) (doesExist : Bool) (w : World) :
    World × Bool :=
  if doesExist then (w, true) else osMkdir env dst mode w

/-- Part of `InstallDir` after the ancestors are in place (install.go 203-228). -/
def installDirLeaf (env : Env) (dst : Path) (opt : InstallOption) (mode : Nat) (w : World) :
    World × Option Err :=
  let ck := checkPath env dst w
  if ck.2.failed then (ck.1, some (.checkFailed dst))
  else if ck.2.doesExist && !ck.2.isDir then (ck.1, some (.notADirectory dst))
  else
    let mk := mkdirIfMissing env dst mode ck.2.doesExist ck.1
    if !mk.2 then (mk.1, some (.mkdirFailed dst))
    else
      let uid := opt.UIDInt
      let gid := opt.GIDInt
      let co := osChown env dst uid gid mk.1
      if !co.2 then (co.1, some (.chownFailed dst uid gid))
      else
        let cm := osChmod env dst mode co.1
        if !cm.2 then (cm.1, some (.chmodFailed dst mode))
        else (cm.1, none)

/-- Function `InstallDir`; `fuel` bounds the recursion of `mkdirRec`, and `none`
means the bound was reached. -/
def InstallDir (env : Env) (fuel : Nat) (dst : Path) (opt : Option InstallOption) (w : World) :
    Option Ret :=
  let pr := Prepare env (opt.getD InstallOption.zero) w
  match pr.2.2 with
  | some e => some ⟨pr.1, opt.map (fun _ => pr.2.1), some (.invalidOption e)⟩
  | none =>
    let mode := pr.2.1.Mode.getD defaultModeDir
    let o : InstallOption := { pr.2.1 with Mode := some mode }
    let out := opt.map (fun _ => o)
    match mkdirRec env fuel (Dir dst) mode o.UIDInt o.GIDInt pr.1 with
    | none => none
    | some (w1, some e) => some ⟨w1, out, some (.createDirectoryFailed e)⟩
    | some (w1, none) =>
      let leaf := installDirLeaf env dst o mode w1
      some ⟨leaf.1, out, leaf.2⟩

/-! ## cmd/inst/main.go -/

/-- The command line as kingpin hands it over: flag values and positional
arguments. -/
structure Flags where
  owner : String
  group : String
  mode : String
  dir : Bool
  args : List String

/-- Exit status of `os.Exit(-1)`. -/
def exitMinusOne : Nat := 255

/-- Exit status of a Go program that ends in a run-time panic. -/
def exitPanic : Nat := 2

/-- Conversion `os.FileMode(m)` of an `int64` to the 32-bit mode. -/
def fileModeOf (m : Int) : Nat := (m % 2 ^ 32).toNat

/-- Function `checkDst`: `true` when it returns nil. -/
def checkDst (env : Env) (dst : Path) (w : World) : World × Bool :=
  let st := osStat env dst w
  match st.2 with
  | .info true => (st.1, true)
  | _ => (st.1, false)

/-- Function `installFile` of main.go: the world it leaves and `some` status
when it ended the program with `os.Exit`. -/
def installFile (env : Env) : List Path → Path → InstallOption → World → World × Option Nat
  | [], _, _, w => (w, none)
  | src :: rest, dst, opt, w =>
    let r := InstallFile env src dst (some opt) (w.record (.callInstallFile src dst))
    match r.err with
    | some _ => (r.world, some exitMinusOne)
    | none => installFile env rest dst (r.opt.getD opt) r.world

/-- The loop of `main` in directory mode (main.go 42-44): the value `InstallDir`
returns is dropped. -/
def installDirs (env : Env) (fuel : Nat) : List Path → InstallOption → World → Option World
  | [], _, w => some w
  | name :: rest, opt, w =>
    match InstallDir env fuel name (some opt) (w.record (.callInstallDir name)) with
    | none => none
    | some r => installDirs env fuel rest (r.opt.getD opt) r.world

/-- Function `main`: the world it leaves and the exit status of the process;
`none` when the recursion bound of `mkdirRec` was reached. -/
def main (env : Env) (fuel : Nat) (f : Flags) (w : World) : Option (World × Nat) :=
  let o1 : InstallOption :=
    if f.owner ≠ "" then { InstallOption.zero with Owner := f.owner } else InstallOption.zero
  let o2 : InstallOption := if f.group ≠ "" then { o1 with Group := f.group } else o1
  let parsed : Option InstallOption :=
    if f.mode ≠ "" then
      (ParseIntOctal32 f.mode).map (fun m => { o2 with Mode := some (fileModeOf m) })
    else some o2
  match parsed with
  | none => some (w, exitMinusOne)
  | some opt =>
    if f.dir then
      (installDirs env fuel f.args opt w).map (fun w1 => (w1, 0))
    else
      match f.args.getLast? with
      | none => some (w, exitPanic)
      | some dst =>
        let sources := f.args.dropLast
        let ck : World × Bool := if sources.length > 1 then checkDst env dst w else (w, true)
        if !ck.2 then some (ck.1, exitMinusOne)
        else
          let r := installFile env sources dst opt ck.1
          some (r.1, r.2.getD 0)

/-! ## Sample surroundings -/

/-- An environment without faults: pid 42, umask 022, uid 1000, gid 100, and a
user directory that knows `alice` (uid 1001, gid 2001) and a group directory
that knows `staff` (gid 50). -/
def sampleEnv : Env :=
  { pid := 42
    umask := 0o22
    euid := 1000
    egid := 100
    lookupUser := fun n => if n = "alice" then some ⟨"1001", "2001"⟩ else none
    lookupGroup := fun n => if n = "staff" then some ⟨"50"⟩ else none
    currentUser := some ⟨"1000", "100"⟩
    statFails := fun _ => false
    openFails := fun _ => false
    createFails := fun _ => false
    readFailsAt := fun _ => none
    writeLimit := fun _ => none
    chownFails := fun _ _ _ => false
    chmodFails := fun _ _ => false
    renameFails := fun _ _ => false
    mkdirFails := fun _ => false
    removeFails := fun _ => false }

/-- A world given by a list of named nodes, with an empty log. -/
def worldOf (l : List (Path × Node)) : World :=
  { fs := fun p => l.lookup p, log := [] }

/-! ## Reading the file system -/

/-- Bytes of the regular file stored under a name, if there is one. -/
def contentAt (w : World) (p : Path) : Option (List Byte) :=
  match w.fs p with
  | some (.file d _ _ _) => some d
  | _ => none

/-- Whether a directory is stored under a name. -/
def isDirAt (w : World) (p : Path) : Bool :=
  match w.fs p with
  | some n => n.isDir
  | none => false

/-- Effective destination of `InstallFile` read off the file system: inside `d`
when `d` is a directory, `d` itself otherwise. -/
def destOf (w : World) (src d : Path) : Path :=
  if isDirAt w d then Join d (Base src) else d

/-- Errors `InstallFile` returns once the temporary file has been created. -/
def Err.afterCreate : Err → Bool
  | .copyFailed _ _ => true
  | .chownFailed _ _ _ => true
  | .chmodFailed _ _ => true
  | .renameFailed _ _ => true
  | _ => false

/-! ## Sample worlds -/

/-- A root, a directory `/d` and a three-byte file `/d/1`. -/
def plainWorld : World :=
  worldOf [("/", .dir 0 0 0o755), ("/d", .dir 0 0 0o755),
    ("/d/1", .file [1, 2, 3] 1000 100 0o644)]

/-- A world whose only file carries the name of the temporary file that
process 42 uses for destination `/d/2`. -/
def aliasWorld : World :=
  worldOf [("/", .dir 0 0 0o755), ("/d", .dir 0 0 0o755),
    ("/d/2.install.42", .file [1, 2, 3] 1000 100 0o644)]

/-- The plain world with two more files, named as the temporary files of
process 42 for `/d/2` and for `/d/1`. -/
def staleWorld : World :=
  worldOf [("/", .dir 0 0 0o755), ("/d", .dir 0 0 0o755),
    ("/d/1", .file [1, 2, 3] 1000 100 0o644),
    ("/d/2.install.42", .file [9] 1000 100 0o600),
    ("/d/1.install.42", .file [7, 7] 1000 100 0o600)]

/-- The sample environment with room for one byte: no write takes a file beyond
one byte (a device with one free byte, or a file size limit of one). -/
def smallDiskEnv : Env := { sampleEnv with writeLimit := fun _ => some 1 }

/-- The sample environment with a source that cannot be read beyond its second
byte. -/
def badSourceEnv : Env := { sampleEnv with readFailsAt := fun _ => some 2 }

/-- A source tree `/a` with the file `/a/c.txt`, a target directory `/d`, and a
file in `/d` named as the temporary file of process 42 for `/d/c.txt`. -/
def treeWorld : World :=
  worldOf [("/", .dir 0 0 0o755), ("/a", .dir 0 0 0o755), ("/d", .dir 0 0 0o755),
    ("/a/c.txt", .file [1, 2, 3] 1000 100 0o644),
    ("/d/c.txt.install.42", .file [7, 7] 1000 100 0o600)]

/-- An option that names an owner and also carries a numeric uid. -/
def conflictOption : InstallOption :=
  { Owner := "alice", Group := "", UID := "7", GID := "", Mode := none }

/-- An option that names the owner `alice` and nothing else. -/
def aliceOption : InstallOption := { InstallOption.zero with Owner := "alice" }

/-- The option `aliceOption` as a successful `InstallDir` leaves it in the
sample environment. -/
def aliceResolved : InstallOption :=
  { Owner := "alice", Group := "", UID := "2001", GID := "100", Mode := some 0o755 }

/-- An option that asks for mode 0777 and nothing else. -/
def openModeOption : InstallOption := { InstallOption.zero with Mode := some 0o777 }

/-- The option as `Prepare` leaves it at the start of a call. -/
def resolvedOption (env : Env) (opt : Option InstallOption) (w : World) : InstallOption :=
  (Prepare env (opt.getD InstallOption.zero) w).2.1

/-- The effective destination a call of `InstallFile` works with (install.go
86-100). -/
def copyDst (env : Env) (src d : Path) (opt : Option InstallOption) (w : World) : Path :=
  effectiveDst src d (osStat env d (Prepare env (opt.getD InstallOption.zero) w).1).2

/-- The temporary name a call of `InstallFile` works with (install.go 102). -/
def copyTmp (env : Env) (src d : Path) (opt : Option InstallOption) (w : World) : Path :=
  tmpPath env (copyDst env src d opt w)

/-- Whether a call of `InstallFile` gets as far as the copy (install.go 117):
identity resolved, destination examined, source opened, temporary file
created. -/
def reachesCopy (env : Env) (src d : Path) (opt : Option InstallOption) (w : World) : Bool :=
  (Prepare env (opt.getD InstallOption.zero) w).2.2.isNone &&
  decide ((osStat env d (Prepare env (opt.getD InstallOption.zero) w).1).2 ≠ .failed) &&
  (osOpen env src (osStat env d (Prepare env (opt.getD InstallOption.zero) w).1).1).2 &&
  (osCreate env (copyTmp env src d opt w)
    (osOpen env src (osStat env d (Prepare env (opt.getD InstallOption.zero) w).1).1).1).2

/-- The world `InstallFile` has when the copy starts (install.go 117). -/
def worldAtCopy (env : Env) (src d : Path) (opt : Option InstallOption) (w : World) : World :=
  (osCreate env (copyTmp env src d opt w)
    (osOpen env src (osStat env d (Prepare env (opt.getD InstallOption.zero) w).1).1).1).1

/-- The world `InstallFile` has when it calls `os.Rename` (install.go 136):
copy, flush, chown and the optional chmod are done. -/
def worldAtRename (env : Env) (src d : Path) (opt : Option InstallOption) (w : World) : World :=
  (chmodIfSet env (copyTmp env src d opt w) (resolvedOption env opt w).Mode
    (osChown env (copyTmp env src d opt w) (resolvedOption env opt w).UIDInt
      (resolvedOption env opt w).GIDInt
      (bufFlush env (copyTmp env src d opt w)
        (ioCopy env src (copyTmp env src d opt w) (worldAtCopy env src d opt w)).2.1
        (ioCopy env src (copyTmp env src d opt w) (worldAtCopy env src d opt w)).1).1).1).1

/-- The calls made from one world to a later one. -/
def newLog (w w' : World) : List Event := w'.log.drop w.log.length

/-- An option whose `UID` is no numeral. -/
def wordOption : InstallOption := { InstallOption.zero with UID := "abc", GID := "1" }

/-- An option whose `UID` is the decimal numeral of `2 ^ 63`. -/
def hugeOption : InstallOption :=
  { InstallOption.zero with UID := "9223372036854775808", GID := "1" }

/-- The mode `InstallDir` works with: the configured one, or `defaultModeDir`. -/
def dirMode (opt : Option InstallOption) : Nat :=
  (opt.getD InstallOption.zero).Mode.getD defaultModeDir

/-! ## Path names and numerals -/

theorem splitSlash_ne_nil (l : List Char) : splitSlash l ≠ [] := by
  cases l with
  | nil => simp [splitSlash]
  | cons c cs =>
    unfold splitSlash
    split
    · simp
    · split <;> simp

theorem splitSlash_append (a b : List Char) :
    splitSlash (a ++ '/' :: b) = splitSlash a ++ splitSlash b := by
  induction a with
  | nil =>
    have hb := splitSlash_ne_nil b
    simp only [List.nil_append]
    rw [splitSlash]
    cases h : splitSlash b with
    | nil => exact absurd h hb
    | cons x xs => simp [splitSlash, h]
  | cons c a ih =>
    have ha := splitSlash_ne_nil a
    simp only [List.cons_append]
    rw [splitSlash, ih, splitSlash]
    cases h : splitSlash a with
    | nil => exact absurd h ha
    | cons x xs =>
      simp only [h, List.cons_append]
      split <;> simp

theorem splitSlash_plain (b : List Char) (h : '/' ∉ b) : splitSlash b = [b] := by
  induction b with
  | nil => rfl
  | cons c cs ih =>
    simp only [List.mem_cons, not_or] at h
    rw [splitSlash, ih h.2]
    simp only
    rw [if_neg (Ne.symm h.1)]

theorem joinSlash_snoc (l : List (List Char)) (b : List Char) (hl : l ≠ []) :
    joinSlash (l ++ [b]) = joinSlash l ++ '/' :: b := by
  induction l with
  | nil => exact absurd rfl hl
  | cons x xs ih =>
    cases xs with
    | nil => simp [joinSlash]
    | cons y ys =>
      have := ih (by simp)
      simp only [List.cons_append] at this ⊢
      rw [joinSlash, this, joinSlash]
      simp

theorem lastSeg_append (x s : List Char) (hs : '/' ∉ s) : lastSeg (x ++ s) = lastSeg x ++ s := by
  unfold lastSeg
  rw [List.reverse_append, List.takeWhile_append_of_pos, List.reverse_append, List.reverse_reverse]
  intro c hc
  have : c ≠ '/' := by
    intro h
    subst h
    exact hs (List.mem_reverse.mp hc)
  simpa using this

theorem lastSeg_slash (y b : List Char) (hb : '/' ∉ b) : lastSeg (y ++ '/' :: b) = b := by
  have : y ++ '/' :: b = (y ++ ['/']) ++ b := by simp
  rw [this, lastSeg_append _ _ hb]
  unfold lastSeg
  simp

theorem lastSeg_plain (b : List Char) (hb : '/' ∉ b) : lastSeg b = b := by
  have := lastSeg_append [] b hb
  simpa [lastSeg] using this


theorem digitChar_ne_slash (m : Nat) (h : m < 10) : Nat.digitChar m ≠ '/' := by
  interval_cases m <;> decide

theorem toDigitsCore_no_slash (fuel n : Nat) (ds : List Char) (h : '/' ∉ ds) :
    '/' ∉ Nat.toDigitsCore 10 fuel n ds := by
  induction fuel generalizing n ds with
  | zero => simpa [Nat.toDigitsCore] using h
  | succ f ih =>
    have hd : '/' ∉ Nat.digitChar (n % 10) :: ds := by
      simp only [List.mem_cons, not_or]
      exact ⟨(digitChar_ne_slash _ (Nat.mod_lt _ (by norm_num))).symm, h⟩
    simp only [Nat.toDigitsCore]
    split
    · exact hd
    · exact ih _ _ hd

theorem pid_no_slash (n : Nat) : '/' ∉ (toString n).data := by
  show '/' ∉ (Nat.repr n).data
  unfold Nat.repr Nat.toDigits
  exact toDigitsCore_no_slash _ _ _ (by simp)

/-- The suffix `tmpPath` appends holds no slash and is longer than two
characters. -/
theorem tmp_suffix (env : Env) :
    '/' ∉ (".install." ++ toString env.pid).data ∧ 2 < (".install." ++ toString env.pid).data.length := by
  refine ⟨?_, ?_⟩
  · simp only [String.data_append, List.mem_append, not_or]
    exact ⟨by decide, pid_no_slash _⟩
  · rw [String.data_append, List.length_append]
    have : (".install." : String).data.length = 9 := by decide
    omega

theorem cleanStep_normal (r : Bool) (acc : List (List Char)) (b : List Char)
    (h1 : b ≠ []) (h2 : b ≠ ['.']) (h3 : b ≠ ['.', '.']) : cleanStep r acc b = b :: acc := by
  simp [cleanStep, h1, h2, h3]

/-- A cleaned name whose last component is an ordinary one ends in that
component. -/
theorem clean_lastSeg (p : Path) (cs : List (List Char)) (b : List Char)
    (hp : p ≠ "") (hsplit : splitSlash p.toList = cs ++ [b])
    (h0 : '/' ∉ b) (h1 : b ≠ []) (h2 : b ≠ ['.']) (h3 : b ≠ ['.', '.']) :
    lastSeg (Clean p).data = b := by
  unfold Clean
  simp only [hp, if_false, hsplit, List.foldl_append, List.foldl_cons, List.foldl_nil]
  rw [cleanStep_normal _ _ b h1 h2 h3, List.reverse_cons]
  generalize (List.foldl (cleanStep (decide (p.toList.head? = some '/'))) [] cs).reverse = l
  have hj : joinSlash (l ++ [b]) = b ∨ ∃ y, joinSlash (l ++ [b]) = y ++ '/' :: b := by
    by_cases hl : l = []
    · left; subst hl; simp [joinSlash]
    · right; exact ⟨_, joinSlash_snoc l b hl⟩
  split
  · rcases hj with hj | ⟨y, hj⟩
    · rw [hj]
      exact lastSeg_slash [] b h0
    · rw [hj]
      exact lastSeg_slash ('/' :: y) b h0
  · split
    · rename_i hb
      rcases hj with hj | ⟨y, hj⟩
      · rw [hj] at hb; exact absurd hb h1
      · rw [hj] at hb; simp at hb
    · rcases hj with hj | ⟨y, hj⟩
      · rw [hj]; exact lastSeg_plain b h0
      · rw [hj]; exact lastSeg_slash y b h0

theorem base_of_suffix (j s : List Char) (hs : '/' ∉ s) (hne : s ≠ []) :
    Base (String.mk (j ++ s)) = String.mk (lastSeg j ++ s) := by
  have hp : String.mk (j ++ s) ≠ "" := by
    intro h
    have := congrArg String.data h
    simp at this
    exact hne this.2
  have hdrop : List.dropWhile (fun c => decide (c = '/')) (j ++ s).reverse = (j ++ s).reverse := by
    rw [List.reverse_append]
    cases hr : s.reverse with
    | nil => simp at hr; exact absurd hr hne
    | cons c cs =>
      have hc : c ≠ '/' := by
        intro h
        subst h
        have : '/' ∈ s.reverse := by rw [hr]; simp
        exact hs (List.mem_reverse.mp this)
      simp [List.dropWhile, hc]
  unfold Base
  simp only [hp, if_false, String.toList, hdrop]
  have : (List.takeWhile (fun c => decide (c ≠ '/')) (j ++ s).reverse).reverse = lastSeg (j ++ s) := rfl
  rw [this, lastSeg_append j s hs]
  have hne2 : lastSeg j ++ s ≠ [] := by simp [hne]
  simp [hne2]

/-- No source is the temporary file of its own redirected destination. -/
theorem src_ne_tmp (env : Env) (src d : Path) : src ≠ tmpPath env (Join d (Base src)) := by
  intro h
  obtain ⟨hs0, hs2⟩ := tmp_suffix env
  generalize hS : (".install." ++ toString env.pid).data = s at hs0 hs2
  have hsne : s ≠ [] := by
    intro h0; rw [h0] at hs2; simp at hs2
  have htmp : (tmpPath env (Join d (Base src))).data = (Join d (Base src)).data ++ s := by
    unfold tmpPath
    rw [← hS]
    simp [String.data_append]
  have hsrc : src = String.mk ((Join d (Base src)).data ++ s) := by
    rw [← htmp, ← h]
  have hbase := base_of_suffix (Join d (Base src)).data s hs0 hsne
  rw [← hsrc] at hbase
  -- the base is an ordinary component
  have hb0 : '/' ∉ (Base src).data := by
    rw [hbase]
    simp only [List.mem_append, not_or]
    refine ⟨?_, hs0⟩
    unfold lastSeg
    intro hm
    have := List.mem_takeWhile_imp (List.mem_reverse.mp hm)
    simp at this
  have hlen : 2 < (Base src).data.length := by
    rw [hbase]
    simp only [List.length_append]
    omega
  have hb1 : (Base src).data ≠ [] := by
    intro h0; rw [h0] at hlen; simp at hlen
  have hb2 : (Base src).data ≠ ['.'] := by
    intro h0; rw [h0] at hlen; simp at hlen
  have hb3 : (Base src).data ≠ ['.', '.'] := by
    intro h0; rw [h0] at hlen; simp at hlen
  have hbne : Base src ≠ "" := by
    intro h0
    exact hb1 (by rw [h0])
  -- so the joined name ends in the base
  have hjoin : lastSeg (Join d (Base src)).data = (Base src).data := by
    unfold Join
    split
    · exact clean_lastSeg (Base src) [] _ hbne (by simpa using splitSlash_plain _ hb0) hb0 hb1 hb2 hb3
    · refine clean_lastSeg _ (splitSlash d.data) _ ?_ ?_ hb0 hb1 hb2 hb3
      · intro h0
        have := congrArg String.data h0
        simp at this
      · have : (d ++ "/" ++ Base src).toList = d.data ++ '/' :: (Base src).data := by
          simp [String.toList, String.data_append]
        rw [this, splitSlash_append, splitSlash_plain _ hb0]
  rw [hjoin] at hbase
  have := congrArg (fun l => l.length) (congrArg String.data hbase)
  simp only [List.length_append] at this
  omega

theorem digitChar_value (m : Nat) (h : m < 10) :
    ('0' ≤ Nat.digitChar m ∧ (Nat.digitChar m).toNat < 48 + 10) ∧
    (Nat.digitChar m).toNat - 48 = m ∧ Nat.digitChar m ≠ '-' ∧ Nat.digitChar m ≠ '+' := by
  interval_cases m <;> decide

/-- Reading back the digits `Nat.toDigitsCore` writes in front of `ds`. -/
theorem digitsValue_toDigitsCore (fuel : Nat) :
    ∀ (n : Nat) (ds : List Char) (acc : Nat), n < 10 ^ fuel →
      ∃ k, digitsValue 10 (Nat.toDigitsCore 10 fuel n ds) acc
        = digitsValue 10 ds (acc * 10 ^ k + n) := by
  induction fuel with
  | zero =>
    intro n ds acc hn
    have : n = 0 := by simpa using hn
    subst this
    exact ⟨0, by simp [Nat.toDigitsCore]⟩
  | succ f ih =>
    intro n ds acc hn
    obtain ⟨⟨d1, d2⟩, d3, _, _⟩ := digitChar_value (n % 10) (Nat.mod_lt _ (by norm_num))
    have hstep : digitsValue 10 (Nat.digitChar (n % 10) :: ds) acc
        = digitsValue 10 ds (acc * 10 + n % 10) := by
      rw [digitsValue, if_pos ⟨d1, d2⟩, d3]
    simp only [Nat.toDigitsCore]
    split
    · rename_i h0
      refine ⟨1, ?_⟩
      rw [hstep]
      have : n % 10 = n := Nat.mod_eq_of_lt (by omega)
      rw [this]
      simp
    · rename_i h0
      have hlt : n / 10 < 10 ^ f := by
        rw [Nat.div_lt_iff_lt_mul (by norm_num)]
        rw [pow_succ] at hn
        exact hn
      obtain ⟨k, hk⟩ := ih (n / 10) (Nat.digitChar (n % 10) :: ds) acc hlt
      refine ⟨k + 1, ?_⟩
      rw [hk, digitsValue, if_pos ⟨d1, d2⟩, d3]
      congr 1
      have := Nat.div_add_mod n 10
      rw [pow_succ]
      nlinarith [Nat.div_add_mod n 10]

theorem toDigitsCore_head (fuel n : Nat) (ds : List Char) (hf : 0 < fuel) :
    ∃ c cs, Nat.toDigitsCore 10 fuel n ds = c :: cs ∧ c ≠ '-' ∧ c ≠ '+' := by
  induction fuel generalizing n ds with
  | zero => exact absurd hf (by simp)
  | succ f ih =>
    obtain ⟨_, _, e1, e2⟩ := digitChar_value (n % 10) (Nat.mod_lt _ (by norm_num))
    simp only [Nat.toDigitsCore]
    split
    · exact ⟨_, _, rfl, e1, e2⟩
    · rename_i h0
      cases f with
      | zero => simp [Nat.toDigitsCore]; exact ⟨e1, e2⟩
      | succ g => exact ih (n / 10) _ (by omega)

/-- The function `Atoi` reads a decimal numeral below `2 ^ 63` back as its
number. -/
theorem Atoi_toString (n : Nat) (h : n < 2 ^ 63) : Atoi (toString n) = (n : Int) := by
  have hrepr : (toString n).toList = Nat.toDigitsCore 10 (n + 1) n [] := rfl
  obtain ⟨c, cs, hcs, hc1, hc2⟩ := toDigitsCore_head (n + 1) n [] (by omega)
  obtain ⟨k, hk⟩ := digitsValue_toDigitsCore (n + 1) n [] 0
    (lt_of_lt_of_le (Nat.lt_pow_self (by norm_num) n) (Nat.pow_le_pow_right (by norm_num) (by omega)))
  have hval : digitsValue 10 (c :: cs) 0 = some n := by
    rw [← hcs, hk]
    simp [digitsValue]
  unfold Atoi signedValue
  rw [hrepr, hcs]
  simp only [hc1, hc2, if_false, hval, Option.map_some']
  have : ¬ n ≥ 2 ^ 63 := by omega
  rw [if_neg this]

/-! ## Effects of the calls -/

@[simp] theorem record_fs (w : World) (e : Event) : (w.record e).fs = w.fs := rfl

@[simp] theorem setNode_same (w : World) (p : Path) (n : Node) : (w.setNode p n).fs p = some n := by
  simp [World.setNode]

theorem setNode_ne (w : World) {p q : Path} (n : Node) (h : q ≠ p) :
    (w.setNode p n).fs q = w.fs q := by
  simp [World.setNode, h]

@[simp] theorem erase_same (w : World) (p : Path) : (w.erase p).fs p = none := by
  simp [World.erase]

theorem erase_ne (w : World) {p q : Path} (h : q ≠ p) : (w.erase p).fs q = w.fs q := by
  simp [World.erase, h]

theorem tmpPath_ne (env : Env) (s : Path) : tmpPath env s ≠ s := by
  intro h
  have h1 := congrArg String.length h
  simp [tmpPath, String.length_append] at h1
  have : (".install.".length) = 9 := by decide
  omega

theorem refused_false {b : Bool} {p : Path} (h : refused b p = false) : b = false ∧ p ≠ "" := by
  unfold refused at h
  simpa using h

theorem refused_of {b : Bool} {p : Path} (hb : b = false) (hp : p ≠ "") : refused b p = false := by
  unfold refused
  simp [hb, hp]

theorem tmpPath_ne_empty (env : Env) (s : Path) : tmpPath env s ≠ "" := by
  intro h
  have h1 := congrArg String.length h
  simp only [tmpPath, String.length_append] at h1
  have : (".install.".length) = 9 := by decide
  have h0 : ("".length) = 0 := by decide
  omega

theorem cleanPath_ne_empty {p : Path} (h : CleanPath p = true) : p ≠ "" := by
  intro hp
  subst hp
  simp [CleanPath] at h

theorem osStat_fs (env : Env) (p : Path) (w : World) : (osStat env p w).1.fs = w.fs := by
  unfold osStat
  split
  · rfl
  · split
    · rfl
    · split <;> rfl

theorem osOpen_fs (env : Env) (p : Path) (w : World) : (osOpen env p w).1.fs = w.fs := by
  unfold osOpen
  split <;> rfl

theorem prepareOwner_fs (env : Env) (o : InstallOption) (w : World) :
    (prepareOwner env o w).1.fs = w.fs := by
  unfold prepareOwner
  split
  · split
    · rfl
    · split <;> rfl
  · rfl

theorem prepareGroup_fs (env : Env) (o : InstallOption) (w : World) :
    (prepareGroup env o w).1.fs = w.fs := by
  unfold prepareGroup
  split
  · split
    · rfl
    · split <;> rfl
  · rfl

theorem prepareFallback_fs (env : Env) (o : InstallOption) (w : World) :
    (prepareFallback env o w).1.fs = w.fs := by
  unfold prepareFallback
  split
  · rfl
  · split <;> rfl

theorem prepareNames_fs (env : Env) (o : InstallOption) (w : World) :
    (prepareNames env o w).1.fs = w.fs := by
  unfold prepareNames
  have h := prepareOwner_fs env o w
  rcases hp : prepareOwner env o w with ⟨w1, o1, e⟩
  rw [hp] at h
  cases e with
  | some e => exact h
  | none => simp only at h ⊢; rw [prepareGroup_fs, h]

theorem prepare_fs (env : Env) (o : InstallOption) (w : World) : (Prepare env o w).1.fs = w.fs := by
  unfold Prepare
  have h := prepareNames_fs env o w
  rcases hp : prepareNames env o w with ⟨w1, o1, e⟩
  rw [hp] at h
  cases e with
  | some e => exact h
  | none => simp only at h ⊢; rw [prepareFallback_fs, h]

/-! ### Effects of the system calls on the file system -/

theorem osCreate_ne (env : Env) (w : World) {p q : Path} (h : q ≠ p) :
    (osCreate env p w).1.fs q = w.fs q := by
  unfold osCreate
  split
  · rfl
  · split
    · rfl
    · simp [setNode_ne _ _ h]
    · split
      · simp [setNode_ne _ _ h]
      · rfl

theorem osCreate_fail (env : Env) (w : World) (p : Path) (h : (osCreate env p w).2 = false) :
    (osCreate env p w).1.fs = w.fs := by
  unfold osCreate at h ⊢
  split
  · rfl
  · split
    · rfl
    · simp_all
    · split
      · simp_all
      · rfl

theorem osCreate_ok (env : Env) (w : World) (p : Path) (h : (osCreate env p w).2 = true) :
    ∃ u g m, (osCreate env p w).1.fs p = some (.file [] u g m) := by
  unfold osCreate at h ⊢
  split
  · simp_all
  · split
    · simp_all
    · exact ⟨_, _, _, setNode_same _ _ _⟩
    · split
      · exact ⟨_, _, _, setNode_same _ _ _⟩
      · simp_all

theorem fileWrite_ne (env : Env) (w : World) (c : List Byte) {p q : Path} (h : q ≠ p) :
    (fileWrite env p c w).1.fs q = w.fs q := by
  unfold fileWrite
  split
  · split
    · simp [setNode_ne _ _ h]
    · split <;> simp [setNode_ne _ _ h]
  · rfl

theorem fileWrite_same (env : Env) (w : World) (c d : List Byte) (p : Path) (u g : Int) (m : Nat)
    (h : w.fs p = some (.file d u g m)) :
    ∃ c', (fileWrite env p c w).1.fs p = some (.file (d ++ c') u g m) ∧
      ((∀ q, env.writeLimit p = some q → d.length + c.length ≤ q) → c' = c ∧ (fileWrite env p c w).2 = false) := by
  unfold fileWrite
  simp only [h]
  split
  · exact ⟨c, setNode_same _ _ _, fun _ => ⟨rfl, rfl⟩⟩
  · rename_i q hq
    split
    · exact ⟨c, setNode_same _ _ _, fun _ => ⟨rfl, rfl⟩⟩
    · rename_i hlt
      exact ⟨_, setNode_same _ _ _, fun hfit => absurd (hfit q hq) hlt⟩

theorem osChown_ne (env : Env) (w : World) (uid gid : Int) {p q : Path} (h : q ≠ p) :
    (osChown env p uid gid w).1.fs q = w.fs q := by
  unfold osChown
  split
  · rfl
  · split
    · rfl
    · simp [setNode_ne _ _ h]

theorem osChown_fail (env : Env) (w : World) (uid gid : Int) (p : Path)
    (h : (osChown env p uid gid w).2 = false) : (osChown env p uid gid w).1.fs = w.fs := by
  unfold osChown at h ⊢
  split
  · rfl
  · split
    · rfl
    · simp_all

theorem osChown_same (env : Env) (w : World) (uid gid : Int) (p : Path)
    (h : (osChown env p uid gid w).2 = true) :
    ∃ n, w.fs p = some n ∧ (osChown env p uid gid w).1.fs p = some (n.withOwner uid gid) := by
  unfold osChown at h ⊢
  split
  · simp_all
  · split
    · simp_all
    · rename_i n hn
      exact ⟨n, hn, setNode_same _ _ _⟩

theorem osChmod_ne (env : Env) (w : World) (mode : Nat) {p q : Path} (h : q ≠ p) :
    (osChmod env p mode w).1.fs q = w.fs q := by
  unfold osChmod
  split
  · rfl
  · split
    · rfl
    · simp [setNode_ne _ _ h]

theorem osChmod_fail (env : Env) (w : World) (mode : Nat) (p : Path)
    (h : (osChmod env p mode w).2 = false) : (osChmod env p mode w).1.fs = w.fs := by
  unfold osChmod at h ⊢
  split
  · rfl
  · split
    · rfl
    · simp_all

theorem osChmod_same (env : Env) (w : World) (mode : Nat) (p : Path)
    (h : (osChmod env p mode w).2 = true) :
    ∃ n, w.fs p = some n ∧ (osChmod env p mode w).1.fs p = some (n.withPerm (Perm mode)) := by
  unfold osChmod at h ⊢
  split
  · simp_all
  · split
    · simp_all
    · rename_i n hn
      exact ⟨n, hn, setNode_same _ _ _⟩

theorem osChown_ok_env (env : Env) (w : World) (uid gid : Int) (p : Path)
    (h : (osChown env p uid gid w).2 = true) : env.chownFails p uid gid = false ∧ p ≠ "" := by
  unfold osChown at h
  simp only at h
  split at h
  · simp at h
  · rename_i hf; exact refused_false (by simpa using hf)

theorem osChmod_ok_env (env : Env) (w : World) (mode : Nat) (p : Path)
    (h : (osChmod env p mode w).2 = true) : env.chmodFails p mode = false ∧ p ≠ "" := by
  unfold osChmod at h
  simp only at h
  split at h
  · simp at h
  · rename_i hf; exact refused_false (by simpa using hf)

theorem chownId_idem (id old : Int) : chownId id (chownId id old) = chownId id old := by
  unfold chownId
  split <;> simp [*]

theorem osRename_ne (env : Env) (w : World) {old new q : Path} (h1 : q ≠ old) (h2 : q ≠ new) :
    (osRename env old new w).1.fs q = w.fs q := by
  unfold osRename
  split
  · rfl
  · split
    · split
      · rfl
      · split
        · split
          · rfl
          · simp [erase_ne _ h1, setNode_ne _ _ h2]
        · rfl
    · rfl

theorem osRename_fail (env : Env) (w : World) (old new : Path)
    (h : (osRename env old new w).2 = false) : (osRename env old new w).1.fs = w.fs := by
  unfold osRename at h ⊢
  split
  · rfl
  · split
    · split
      · rfl
      · split
        · simp_all
        · rfl
    · rfl

theorem osRename_ok (env : Env) (w : World) {old new : Path} (hne : old ≠ new)
    (h : (osRename env old new w).2 = true) :
    ∃ d u g m, w.fs old = some (.file d u g m) ∧
      (osRename env old new w).1.fs new = some (.file d u g m) ∧
      (osRename env old new w).1.fs old = none := by
  unfold osRename at h ⊢
  split
  · simp_all
  · split
    · rename_i d u g m hold
      split
      · simp_all
      · split
        · refine ⟨d, u, g, m, hold, ?_, ?_⟩
          · simp [hne, erase_ne _ (Ne.symm hne)]
          · simp [hne]
        · simp_all
    · simp_all


theorem fileRead_file (env : Env) (w : World) (p : Path) (h : (fileRead env p w).2 = false) :
    contentAt w p = some (fileRead env p w).1 := by
  unfold contentAt
  unfold fileRead at h ⊢
  split
  · rename_i d u g m hfs
    simp only [hfs] at h ⊢
    split
    · split
      · simp_all
      · rfl
    · rfl
  · rename_i hfs
    split at h
    · rename_i d u g m hfs2
      exact absurd hfs2 (hfs d u g m)
    · simp at h

theorem fileWrite_ok (env : Env) (w : World) (c d : List Byte) (p : Path) (u g : Int) (m : Nat)
    (h : w.fs p = some (.file d u g m)) (hok : (fileWrite env p c w).2 = false) :
    (fileWrite env p c w).1.fs p = some (.file (d ++ c) u g m) := by
  unfold fileWrite at hok ⊢
  simp only [h] at hok ⊢
  split
  · exact setNode_same _ _ _
  · split
    · exact setNode_same _ _ _
    · simp_all

theorem ioCopy_world (env : Env) (w : World) (src tmp : Path) :
    (ioCopy env src tmp w).1 = w ∨
    ∃ c, (ioCopy env src tmp w).1 = (fileWrite env tmp c w).1 := by
  unfold ioCopy
  simp only
  split
  · left; rfl
  · right; exact ⟨_, rfl⟩

theorem ioCopy_ne (env : Env) (w : World) (src : Path) {tmp q : Path} (h : q ≠ tmp) :
    (ioCopy env src tmp w).1.fs q = w.fs q := by
  rcases ioCopy_world env w src tmp with h1 | ⟨c, h1⟩
  · rw [h1]
  · rw [h1, fileWrite_ne env w c h]

theorem ioCopy_file (env : Env) (w : World) (src tmp : Path) (d : List Byte) (u g : Int) (m : Nat)
    (h : w.fs tmp = some (.file d u g m)) :
    ∃ d', (ioCopy env src tmp w).1.fs tmp = some (.file d' u g m) := by
  rcases ioCopy_world env w src tmp with h1 | ⟨c, h1⟩
  · rw [h1]; exact ⟨d, h⟩
  · rw [h1]
    obtain ⟨c', hc, _⟩ := fileWrite_same env w c d tmp u g m h
    exact ⟨_, hc⟩

/-- Nothing stays in the buffer after the copy. -/
theorem ioCopy_pending (env : Env) (w : World) (src tmp : Path) :
    (ioCopy env src tmp w).2.1 = [] := by
  unfold ioCopy
  simp only
  split <;> rfl

/-- The copy returns an error exactly when the read of the source fails or the
write of what was read fails. -/
theorem ioCopy_error (env : Env) (w : World) (src tmp : Path) :
    (ioCopy env src tmp w).2.2 = true ↔
      ((fileRead env src w).2 = true ∨
        ((fileRead env src w).1 ≠ [] ∧
          (fileWrite env tmp (fileRead env src w).1 w).2 = true)) := by
  unfold ioCopy
  simp only
  split
  · rename_i h
    simp [h]
  · rename_i h
    simp only [Bool.or_eq_true, ne_eq, h, not_false_eq_true, true_and]
    exact Or.comm

theorem bufFlush_nil (env : Env) (tmp : Path) (w : World) : bufFlush env tmp [] w = (w, false) := by
  simp [bufFlush]

theorem bufFlush_ne (env : Env) (w : World) (pending : List Byte) {tmp q : Path} (h : q ≠ tmp) :
    (bufFlush env tmp pending w).1.fs q = w.fs q := by
  unfold bufFlush
  split
  · rfl
  · exact fileWrite_ne env w pending h

theorem bufFlush_file (env : Env) (w : World) (pending : List Byte) (tmp : Path) (d : List Byte)
    (u g : Int) (m : Nat) (h : w.fs tmp = some (.file d u g m)) :
    ∃ d', (bufFlush env tmp pending w).1.fs tmp = some (.file d' u g m) := by
  unfold bufFlush
  split
  · exact ⟨d, h⟩
  · obtain ⟨c', hc, _⟩ := fileWrite_same env w pending d tmp u g m h
    exact ⟨_, hc⟩

/-- A copy that reports no error leaves in the (empty) temporary file all the
bytes the source holds when the copy starts. -/
theorem copy_content (env : Env) (w : World) (src tmp : Path) (u g : Int) (m : Nat)
    (htmp : w.fs tmp = some (.file [] u g m))
    (hok : (ioCopy env src tmp w).2.2 = false) :
    ∃ b, contentAt w src = some b ∧ (ioCopy env src tmp w).1.fs tmp = some (.file b u g m) := by
  have herr := ioCopy_error env w src tmp
  rw [hok] at herr
  simp only [Bool.false_eq_true, ne_eq, false_iff, not_or, Bool.not_eq_true, not_and] at herr
  obtain ⟨hrd, hwr⟩ := herr
  refine ⟨_, fileRead_file env w src hrd, ?_⟩
  unfold ioCopy
  simp only
  split
  · rename_i h
    rw [h]; exact htmp
  · rename_i h
    have := fileWrite_ok env w (fileRead env src w).1 [] tmp u g m htmp (hwr h)
    simpa using this

/-- A copy that reports no error, followed by the flush, leaves the whole
source in the temporary file. -/
theorem copy_flush_content (env : Env) (w : World) (src tmp : Path) (b : List Byte)
    (u g : Int) (m : Nat)
    (htmp : w.fs tmp = some (.file [] u g m)) (hsrc : contentAt w src = some b)
    (hok : (ioCopy env src tmp w).2.2 = false) :
    (bufFlush env tmp (ioCopy env src tmp w).2.1 (ioCopy env src tmp w).1).1.fs tmp
      = some (.file b u g m) := by
  obtain ⟨b', hb, hc⟩ := copy_content env w src tmp u g m htmp hok
  rw [hsrc] at hb
  simp only [Option.some.injEq] at hb
  subst hb
  rw [ioCopy_pending, bufFlush_nil]
  exact hc


theorem chmodIfSet_ne (env : Env) (w : World) (mode : Option Nat) {p q : Path} (h : q ≠ p) :
    (chmodIfSet env p mode w).1.fs q = w.fs q := by
  unfold chmodIfSet
  split
  · rfl
  · simp only
    split <;> exact osChmod_ne env w _ h

theorem chmodIfSet_fail (env : Env) (w : World) (mode : Option Nat) (p : Path) (e : Err)
    (h : (chmodIfSet env p mode w).2 = some e) : (chmodIfSet env p mode w).1.fs = w.fs := by
  unfold chmodIfSet at h ⊢
  split
  · rfl
  · simp only at h ⊢
    split
    · rename_i h1; simp [h1] at h
    · rename_i h1; exact osChmod_fail env w _ p (by simpa using h1)

theorem chmodIfSet_same (env : Env) (w : World) (mode : Option Nat) (p : Path)
    (d : List Byte) (u g : Int) (m : Nat) (hw : w.fs p = some (.file d u g m)) :
    ∃ m', (chmodIfSet env p mode w).1.fs p = some (.file d u g m') := by
  unfold chmodIfSet
  split
  · exact ⟨m, hw⟩
  · rename_i mo
    simp only
    by_cases h1 : (osChmod env p mo w).2 = true
    · obtain ⟨n, hn, hn2⟩ := osChmod_same env w mo p h1
      rw [hw] at hn
      simp only [Option.some.injEq] at hn
      subst hn
      simp only [h1, if_true]
      exact ⟨_, hn2⟩
    · simp only [h1, Bool.false_eq_true, if_false]
      rw [osChmod_fail env w mo p (by simpa using h1)]
      exact ⟨m, hw⟩

/-- Paths other than the temporary file and the destination are not touched by
the body of `InstallFile`. -/
theorem body_ne (env : Env) (src dst tmp : Path) (opt : InstallOption) (w : World) {q : Path}
    (h1 : q ≠ tmp) (h2 : q ≠ dst) :
    (installFileBody env src dst tmp opt w).1.fs q = w.fs q := by
  have e1 := ioCopy_ne env w src h1
  have e2 := bufFlush_ne env (ioCopy env src tmp w).1 (ioCopy env src tmp w).2.1 h1
  have e3 := osChown_ne env (bufFlush env tmp (ioCopy env src tmp w).2.1 (ioCopy env src tmp w).1).1
    opt.UIDInt opt.GIDInt h1
  have e4 := chmodIfSet_ne env (osChown env tmp opt.UIDInt opt.GIDInt
    (bufFlush env tmp (ioCopy env src tmp w).2.1 (ioCopy env src tmp w).1).1).1 opt.Mode h1
  have e5 := osRename_ne env (chmodIfSet env tmp opt.Mode (osChown env tmp opt.UIDInt opt.GIDInt
    (bufFlush env tmp (ioCopy env src tmp w).2.1 (ioCopy env src tmp w).1).1).1).1 h1 h2
  unfold installFileBody
  simp only
  split
  · exact e1
  · split
    · rw [e3, e2, e1]
    · split
      · rw [e4, e3, e2, e1]
      · split <;> rw [e5, e4, e3, e2, e1]


/-- When the body of `InstallFile` returns an error, the destination is as it
was. -/
theorem body_fail_dst (env : Env) (src dst tmp : Path) (opt : InstallOption) (w : World)
    (hne : dst ≠ tmp) (e : Err) (he : (installFileBody env src dst tmp opt w).2 = some e) :
    (installFileBody env src dst tmp opt w).1.fs dst = w.fs dst := by
  have e1 := ioCopy_ne env w src hne
  have e2 := bufFlush_ne env (ioCopy env src tmp w).1 (ioCopy env src tmp w).2.1 hne
  have e3 := osChown_ne env (bufFlush env tmp (ioCopy env src tmp w).2.1 (ioCopy env src tmp w).1).1
    opt.UIDInt opt.GIDInt hne
  have e4 := chmodIfSet_ne env (osChown env tmp opt.UIDInt opt.GIDInt
    (bufFlush env tmp (ioCopy env src tmp w).2.1 (ioCopy env src tmp w).1).1).1 opt.Mode hne
  unfold installFileBody at he ⊢
  simp only at he ⊢
  split
  · exact e1
  · split
    · rw [e3, e2, e1]
    · split
      · rw [e4, e3, e2, e1]
      · split
        · rename_i h0 h1 _ h3 h4
          simp [h0, h1, h3, h4] at he
        · rename_i h4
          rw [osRename_fail _ _ _ _ (by simpa using h4), e4, e3, e2, e1]

/-- The temporary file stays a regular file, or is gone, through the body of
`InstallFile`. -/
theorem body_tmp (env : Env) (src dst tmp : Path) (opt : InstallOption) (w : World)
    (hne : tmp ≠ dst) (d : List Byte) (u g : Int) (m : Nat)
    (hw : w.fs tmp = some (.file d u g m)) :
    (installFileBody env src dst tmp opt w).1.fs tmp = none ∨
    ∃ d' u' g' m', (installFileBody env src dst tmp opt w).1.fs tmp = some (.file d' u' g' m') := by
  obtain ⟨d1, h1⟩ := ioCopy_file env w src tmp d u g m hw
  obtain ⟨d2, h2⟩ := bufFlush_file env (ioCopy env src tmp w).1 (ioCopy env src tmp w).2.1 tmp d1 u g m h1
  have h3 : ∃ u' g', (osChown env tmp opt.UIDInt opt.GIDInt
      (bufFlush env tmp (ioCopy env src tmp w).2.1 (ioCopy env src tmp w).1).1).1.fs tmp
        = some (.file d2 u' g' m) := by
    by_cases hc : (osChown env tmp opt.UIDInt opt.GIDInt
      (bufFlush env tmp (ioCopy env src tmp w).2.1 (ioCopy env src tmp w).1).1).2 = true
    · obtain ⟨n, hn, hn2⟩ := osChown_same env _ _ _ _ hc
      rw [h2] at hn
      simp only [Option.some.injEq] at hn
      subst hn
      exact ⟨_, _, hn2⟩
    · rw [osChown_fail env _ _ _ _ (by simpa using hc)]
      exact ⟨_, _, h2⟩
  obtain ⟨u3, g3, h3⟩ := h3
  obtain ⟨m4, h4⟩ := chmodIfSet_same env _ opt.Mode tmp d2 u3 g3 m h3
  unfold installFileBody
  simp only
  split
  · right; exact ⟨_, _, _, _, h1⟩
  · split
    · right; exact ⟨_, _, _, _, h3⟩
    · split
      · right; exact ⟨_, _, _, _, h4⟩
      · split
        · rename_i hr
          obtain ⟨_, _, _, _, _, _, hr3⟩ := osRename_ok env _ hne hr
          left; exact hr3
        · rename_i hr
          rw [osRename_fail _ _ _ _ (by simpa using hr)]
          right; exact ⟨_, _, _, _, h4⟩

/-- When the body of `InstallFile` returns no error, the temporary name is gone
and the destination holds all the bytes the source holds when the copy
starts. -/
theorem body_ok (env : Env) (src dst tmp : Path) (opt : InstallOption) (w : World)
    (hne : tmp ≠ dst) (b : List Byte) (u g : Int) (m : Nat)
    (hw : w.fs tmp = some (.file [] u g m)) (hsrc : contentAt w src = some b)
    (hok : (installFileBody env src dst tmp opt w).2 = none) :
    (installFileBody env src dst tmp opt w).1.fs tmp = none ∧
    ∃ m', (installFileBody env src dst tmp opt w).1.fs dst
      = some (.file b (chownId opt.UIDInt u) (chownId opt.GIDInt g) m') := by
  unfold installFileBody at hok ⊢
  simp only at hok ⊢
  split at hok
  · simp at hok
  · rename_i hcp
    have h2 := copy_flush_content env w src tmp b u g m hw hsrc (by simpa using hcp)
    split at hok
    · simp at hok
    · rename_i hco
      have hco2 : (osChown env tmp opt.UIDInt opt.GIDInt
          (bufFlush env tmp (ioCopy env src tmp w).2.1 (ioCopy env src tmp w).1).1).2 = true := by
        simpa using hco
      obtain ⟨n, hn, hn2⟩ := osChown_same env _ _ _ _ hco2
      rw [h2] at hn
      simp only [Option.some.injEq] at hn
      subst hn
      obtain ⟨m4, h4⟩ := chmodIfSet_same env _ opt.Mode tmp b (chownId opt.UIDInt u)
        (chownId opt.GIDInt g) m hn2
      split at hok
      · simp at hok
      · split at hok
        · rename_i hcm hr
          obtain ⟨d5, u5, g5, m5, hr1, hr2, hr3⟩ := osRename_ok env _ hne hr
          rw [h4] at hr1
          simp only [Option.some.injEq, Node.file.injEq] at hr1
          obtain ⟨rfl, rfl, rfl, rfl⟩ := hr1
          rw [if_neg hcp, if_neg hco, if_pos hr]
          exact ⟨hr3, _, hr2⟩
        · simp at hok


/-- When the body of `InstallFile` returns no error, the temporary name is
gone: it has been renamed. -/
theorem body_ok_tmp (env : Env) (src dst tmp : Path) (opt : InstallOption) (w : World)
    (hne : tmp ≠ dst) (hok : (installFileBody env src dst tmp opt w).2 = none) :
    (installFileBody env src dst tmp opt w).1.fs tmp = none := by
  unfold installFileBody at hok ⊢
  simp only at hok ⊢
  split at hok
  · simp at hok
  · rename_i hcp
    split at hok
    · simp at hok
    · rename_i hco
      split at hok
      · simp at hok
      · split at hok
        · rename_i hcm hr
          obtain ⟨_, _, _, _, _, _, hr3⟩ := osRename_ok env _ hne hr
          rw [if_neg hcp, if_neg hco, if_pos hr]
          exact hr3
        · simp at hok

theorem osRemoveAll_none (env : Env) (w : World) (p : Path) (h : w.fs p = none) :
    (osRemoveAll env p w).fs = w.fs := by
  unfold osRemoveAll
  simp only [h]
  split <;> rfl

theorem osRemoveAll_ne (env : Env) (w : World) {p q : Path} (h : q ≠ p)
    (hnd : w.fs p = none ∨ ∃ d u g m, w.fs p = some (.file d u g m)) :
    (osRemoveAll env p w).fs q = w.fs q := by
  rcases hnd with h0 | ⟨d, u, g, m, h0⟩
  · rw [osRemoveAll_none env w p h0]
  · unfold osRemoveAll
    simp only [h0]
    split
    · rfl
    · simp [erase_ne _ h]

theorem osRemoveAll_same (env : Env) (w : World) (p : Path)
    (hrm : refused (env.removeFails p) p = false)
    (hnd : w.fs p = none ∨ ∃ d u g m, w.fs p = some (.file d u g m)) :
    (osRemoveAll env p w).fs p = none := by
  rcases hnd with h0 | ⟨d, u, g, m, h0⟩
  · rw [osRemoveAll_none env w p h0, h0]
  · unfold osRemoveAll
    simp [h0, hrm]

theorem osStat_result (env : Env) (p : Path) (w : World) (hp : p ≠ "")
    (h : (osStat env p w).2 ≠ .failed) :
    (osStat env p w).2 = (match w.fs p with
      | none => StatResult.notExist
      | some n => StatResult.info n.isDir) := by
  unfold osStat at h ⊢
  simp only at h ⊢
  rw [if_neg hp] at h ⊢
  by_cases hf : env.statFails p = true
  · simp [hf] at h
  · rw [if_neg hf] at h ⊢
    cases hfs : w.fs p with
    | none =>
      rw [hfs] at h
      by_cases hb : belowFile w p.length p = true
      · simp [hb] at h
      · simp [hb]
    | some n => rfl

theorem effectiveDst_eq (env : Env) (src d : Path) (w w' : World) (hfs : w'.fs = w.fs)
    (hd : d ≠ "") (h : (osStat env d w').2 ≠ .failed) :
    effectiveDst src d (osStat env d w').2 = destOf w src d := by
  rw [osStat_result env d w' hd h, hfs]
  unfold effectiveDst destOf isDirAt
  cases hd : w.fs d with
  | none => simp
  | some n => cases hn : n.isDir <;> simp [hn]

theorem body_err_kind (env : Env) (src dst tmp : Path) (opt : InstallOption) (w : World) (e : Err)
    (he : (installFileBody env src dst tmp opt w).2 = some e) : e.afterCreate = true := by
  unfold installFileBody at he
  simp only at he
  split at he
  · simp only [Option.some.injEq] at he; subst he; rfl
  · split at he
    · simp only [Option.some.injEq] at he; subst he; rfl
    · split at he
      · rename_i e' hcm
        simp only [Option.some.injEq] at he; subst he
        unfold chmodIfSet at hcm
        split at hcm
        · simp at hcm
        · simp only at hcm
          split at hcm
          · simp at hcm
          · simp only [Option.some.injEq] at hcm; subst hcm; rfl
      · split at he
        · simp at he
        · simp only [Option.some.injEq] at he; subst he; rfl

theorem osCreate_ok_notDir (env : Env) (w : World) (p : Path)
    (h : (osCreate env p w).2 = true) : isDirAt w p = false := by
  unfold osCreate at h
  unfold isDirAt
  simp only at h
  split at h
  · simp at h
  · split at h
    · simp at h
    · rename_i hfs; simp [hfs, Node.isDir]
    · rename_i hfs; simp [hfs]

theorem osRename_ok_notDir (env : Env) (w : World) (old new : Path)
    (h : (osRename env old new w).2 = true) : isDirAt w new = false := by
  unfold osRename at h
  unfold isDirAt
  simp only at h
  split at h
  · simp at h
  · split at h
    · split at h
      · simp at h
      · rename_i hnd
        cases hn : w.fs new with
        | none => rfl
        | some n =>
          cases n with
          | file d u g m => rfl
          | dir u g m => exact absurd hn (hnd u g m)
    · simp at h

/-- When the body of `InstallFile` returns no error, the destination was not a
directory. -/
theorem body_ok_notDir (env : Env) (src dst tmp : Path) (opt : InstallOption) (w : World)
    (hne : dst ≠ tmp) (hok : (installFileBody env src dst tmp opt w).2 = none) :
    isDirAt w dst = false := by
  have e1 := ioCopy_ne env w src hne
  have e2 := bufFlush_ne env (ioCopy env src tmp w).1 (ioCopy env src tmp w).2.1 hne
  have e3 := osChown_ne env (bufFlush env tmp (ioCopy env src tmp w).2.1 (ioCopy env src tmp w).1).1
    opt.UIDInt opt.GIDInt hne
  have e4 := chmodIfSet_ne env (osChown env tmp opt.UIDInt opt.GIDInt
    (bufFlush env tmp (ioCopy env src tmp w).2.1 (ioCopy env src tmp w).1).1).1 opt.Mode hne
  unfold installFileBody at hok
  simp only at hok
  split at hok
  · simp at hok
  · split at hok
    · simp at hok
    · split at hok
      · simp at hok
      · split at hok
        · rename_i hr
          have h5 := osRename_ok_notDir env _ _ _ hr
          unfold isDirAt at h5 ⊢
          rw [e4, e3, e2, e1] at h5
          exact h5
        · simp at hok

/-- What a call of `InstallFile` does to the file system, with `dst` the
effective destination and `tmp` the temporary name beside it. -/
theorem InstallFile_spec (env : Env) (src d : Path) (opt : Option InstallOption) (w : World)
    (hd : d ≠ "") :
    (∀ q, q ≠ tmpPath env (destOf w src d) → q ≠ destOf w src d →
        (InstallFile env src d opt w).world.fs q = w.fs q) ∧
    (∀ e, (InstallFile env src d opt w).err = some e →
        (InstallFile env src d opt w).world.fs (destOf w src d) = w.fs (destOf w src d)) ∧
    (∀ e, (InstallFile env src d opt w).err = some e → e.afterCreate = false →
        (InstallFile env src d opt w).world.fs = w.fs) ∧
    (∀ e, (InstallFile env src d opt w).err = some e → e.afterCreate = true →
        env.removeFails (tmpPath env (destOf w src d)) = false →
        (InstallFile env src d opt w).world.fs (tmpPath env (destOf w src d)) = none) ∧
    ((InstallFile env src d opt w).err = none →
        (InstallFile env src d opt w).world.fs (tmpPath env (destOf w src d)) = none ∧
        isDirAt w (tmpPath env (destOf w src d)) = false ∧
        isDirAt w (destOf w src d) = false ∧
        ∀ b, contentAt w src = some b → src ≠ tmpPath env (destOf w src d) →
          contentAt (InstallFile env src d opt w).world (destOf w src d) = some b) := by
  have hpr := prepare_fs env (opt.getD InstallOption.zero) w
  unfold InstallFile
  simp only
  split
  · -- identity resolution failed
    refine ⟨fun q _ _ => by rw [hpr], fun e _ => by rw [hpr], fun e _ _ => hpr, ?_, ?_⟩
    · intro e he hk; simp only [Option.some.injEq] at he; subst he; simp [Err.afterCreate] at hk
    · intro he; simp at he
  · have hst := osStat_fs env d (Prepare env (opt.getD InstallOption.zero) w).1
    split
    · -- stat failed
      refine ⟨fun q _ _ => by rw [hst, hpr], fun e _ => by rw [hst, hpr],
        fun e _ _ => by rw [hst, hpr], ?_, ?_⟩
      · intro e he hk; simp only [Option.some.injEq] at he; subst he; simp [Err.afterCreate] at hk
      · intro he; simp at he
    · rename_i hsf
      rw [effectiveDst_eq env src d w _ hpr hd hsf]
      have hop := osOpen_fs env src (osStat env d (Prepare env (opt.getD InstallOption.zero) w).1).1
      split
      · -- open failed
        refine ⟨fun q _ _ => by rw [hop, hst, hpr], fun e _ => by rw [hop, hst, hpr],
          fun e _ _ => by rw [hop, hst, hpr], ?_, ?_⟩
        · intro e he hk; simp only [Option.some.injEq] at he; subst he; simp [Err.afterCreate] at hk
        · intro he; simp at he
      · split
        · -- create failed
          rename_i hcr
          have hcf := osCreate_fail env
            (osOpen env src (osStat env d (Prepare env (opt.getD InstallOption.zero) w).1).1).1
            (tmpPath env (destOf w src d)) (by simpa using hcr)
          refine ⟨fun q _ _ => by rw [hcf, hop, hst, hpr], fun e _ => by rw [hcf, hop, hst, hpr],
            fun e _ _ => by rw [hcf, hop, hst, hpr], ?_, ?_⟩
          · intro e he hk; simp only [Option.some.injEq] at he; subst he; simp [Err.afterCreate] at hk
          · intro he; simp at he
        · -- the temporary file is in place
          rename_i hcr
          have hcr2 : (osCreate env (tmpPath env (destOf w src d))
              (osOpen env src (osStat env d (Prepare env (opt.getD InstallOption.zero) w).1).1).1).2
              = true := by simpa using hcr
          obtain ⟨u, g, m, hfile⟩ := osCreate_ok env _ _ hcr2
          have hne : tmpPath env (destOf w src d) ≠ destOf w src d := tmpPath_ne env _
          have htmp := body_tmp env src (destOf w src d) (tmpPath env (destOf w src d))
            (Prepare env (opt.getD InstallOption.zero) w).2.1 _ hne [] u g m hfile
          have hcne : ∀ q, q ≠ tmpPath env (destOf w src d) →
              (osCreate env (tmpPath env (destOf w src d))
                (osOpen env src (osStat env d (Prepare env (opt.getD InstallOption.zero) w).1).1).1).1.fs q
              = w.fs q := by
            intro q hq
            rw [osCreate_ne env _ hq, hop, hst, hpr]
          refine ⟨?_, ?_, ?_, ?_, ?_⟩
          · intro q hq1 hq2
            rw [osRemoveAll_ne env _ hq1 htmp, body_ne env src _ _ _ _ hq1 hq2, hcne q hq1]
          · intro e he
            rw [osRemoveAll_ne env _ (Ne.symm hne) htmp,
              body_fail_dst env src _ _ _ _ (Ne.symm hne) e he, hcne _ (Ne.symm hne)]
          · intro e he hk
            rw [body_err_kind env src _ _ _ _ e he] at hk
            simp at hk
          · intro e _ _ hrm
            exact osRemoveAll_same env _ _ (refused_of hrm (tmpPath_ne_empty env _)) htmp
          · intro he
            refine ⟨?_, ?_, ?_, ?_⟩
            · have h0 := body_ok_tmp env src _ _ _ _ hne he
              rw [osRemoveAll_none env _ _ h0, h0]
            · have h0 := osCreate_ok_notDir env _ _ hcr2
              unfold isDirAt at h0 ⊢
              rw [hop, hst, hpr] at h0
              exact h0
            · have h0 := body_ok_notDir env src _ _ _ _ (Ne.symm hne) he
              unfold isDirAt at h0 ⊢
              rw [hcne _ (Ne.symm hne)] at h0
              exact h0
            · intro b hb hsne
              have hsrc : contentAt (osCreate env (tmpPath env (destOf w src d))
                  (osOpen env src (osStat env d (Prepare env (opt.getD InstallOption.zero) w).1).1).1).1
                  src = some b := by
                unfold contentAt at hb ⊢
                rw [hcne src hsne]
                exact hb
              obtain ⟨h1, m', h2⟩ := body_ok env src _ _ _ _ hne b u g m hfile hsrc he
              unfold contentAt
              rw [osRemoveAll_none env _ _ h1, h2]

/-! ## Identity resolution -/

theorem prepareOwner_log (env : Env) (opt : InstallOption) (w : World) :
    ∃ l, (prepareOwner env opt w).1.log = w.log ++ l ∧ Event.currentUser ∉ l := by
  unfold prepareOwner
  split
  · split
    · exact ⟨[], by simp⟩
    · split
      · exact ⟨[_], rfl, by simp⟩
      · exact ⟨[_], rfl, by simp⟩
  · exact ⟨[], by simp⟩

theorem prepareGroup_log (env : Env) (opt : InstallOption) (w : World) :
    ∃ l, (prepareGroup env opt w).1.log = w.log ++ l ∧ Event.currentUser ∉ l := by
  unfold prepareGroup
  split
  · split
    · exact ⟨[], by simp⟩
    · split
      · exact ⟨[_], rfl, by simp⟩
      · exact ⟨[_], rfl, by simp⟩
  · exact ⟨[], by simp⟩

theorem prepareNames_log (env : Env) (opt : InstallOption) (w : World) :
    ∃ l, (prepareNames env opt w).1.log = w.log ++ l ∧ Event.currentUser ∉ l := by
  unfold prepareNames
  obtain ⟨l1, h1, h1'⟩ := prepareOwner_log env opt w
  rcases hp : prepareOwner env opt w with ⟨w1, o1, e⟩
  rw [hp] at h1
  cases e with
  | some e => exact ⟨l1, h1, h1'⟩
  | none =>
    obtain ⟨l2, h2, h2'⟩ := prepareGroup_log env o1 w1
    refine ⟨l1 ++ l2, ?_, ?_⟩
    · simp only at h1 ⊢
      rw [h2, h1, List.append_assoc]
    · simp [h1', h2']

theorem prepareOwner_opt (env : Env) (opt : InstallOption) (w : World)
    (h : (prepareOwner env opt w).2.2 = none) :
    (prepareOwner env opt w).2.1.GID = opt.GID ∧
    (opt.UID ≠ "" → (prepareOwner env opt w).2.1.UID = opt.UID) := by
  unfold prepareOwner at h ⊢
  split
  · rename_i hO
    split
    · rename_i hU; simp [hO, hU] at h
    · split
      · simp_all
      · rename_i hU _ _ _
        exact ⟨rfl, fun h' => absurd h' hU⟩
  · exact ⟨rfl, fun _ => rfl⟩

theorem prepareGroup_opt (env : Env) (opt : InstallOption) (w : World)
    (h : (prepareGroup env opt w).2.2 = none) :
    (prepareGroup env opt w).2.1.UID = opt.UID ∧
    (opt.GID ≠ "" → (prepareGroup env opt w).2.1.GID = opt.GID) := by
  unfold prepareGroup at h ⊢
  split
  · rename_i hO
    split
    · rename_i hU; simp [hO, hU] at h
    · split
      · simp_all
      · rename_i hU _ _ _
        exact ⟨rfl, fun h' => absurd h' hU⟩
  · exact ⟨rfl, fun _ => rfl⟩

theorem prepareNames_opt (env : Env) (opt : InstallOption) (w : World)
    (h : (prepareNames env opt w).2.2 = none) :
    (opt.UID ≠ "" → (prepareNames env opt w).2.1.UID = opt.UID) ∧
    (opt.GID ≠ "" → (prepareNames env opt w).2.1.GID = opt.GID) := by
  unfold prepareNames at h ⊢
  have h1 := prepareOwner_opt env opt w
  rcases hp : prepareOwner env opt w with ⟨w1, o1, e⟩
  rw [hp] at h h1
  cases e with
  | some e => simp at h
  | none =>
    simp only at h h1 ⊢
    obtain ⟨a1, a2⟩ := h1 trivial
    obtain ⟨b1, b2⟩ := prepareGroup_opt env o1 w1 h
    refine ⟨fun hu => ?_, fun hg => ?_⟩
    · rw [b1, a2 hu]
    · rw [b2 (by rw [a1]; exact hg), a1]

theorem prepareFallback_opt (env : Env) (opt : InstallOption) (w : World)
    (hC : ∀ u, env.currentUser = some u → u.Uid ≠ "" ∧ u.Gid ≠ "")
    (h : (prepareFallback env opt w).2.2 = none) :
    (prepareFallback env opt w).2.1.UID ≠ "" ∧ (prepareFallback env opt w).2.1.GID ≠ "" ∧
    (opt.UID ≠ "" → (prepareFallback env opt w).2.1.UID = opt.UID) ∧
    (opt.GID ≠ "" → (prepareFallback env opt w).2.1.GID = opt.GID) ∧
    (opt.UID = "" → ∃ u, env.currentUser = some u ∧ (prepareFallback env opt w).2.1.UID = u.Uid) ∧
    (opt.GID = "" → ∃ u, env.currentUser = some u ∧ (prepareFallback env opt w).2.1.GID = u.Gid) := by
  unfold prepareFallback at h ⊢
  split
  · rename_i hb
    exact ⟨hb.1, hb.2, fun _ => rfl, fun _ => rfl, fun h' => absurd h' hb.1, fun h' => absurd h' hb.2⟩
  · split
    · simp_all
    · rename_i u hc
      obtain ⟨c1, c2⟩ := hC u hc
      by_cases hu : opt.UID = "" <;> by_cases hg : opt.GID = "" <;> simp [hu, hg, c1, c2, hc]

theorem prepareOwner_group (env : Env) (opt : InstallOption) (w : World) :
    (prepareOwner env opt w).2.1.Group = opt.Group ∧
    (prepareOwner env opt w).2.1.GID = opt.GID := by
  unfold prepareOwner
  split
  · split
    · exact ⟨rfl, rfl⟩
    · split <;> exact ⟨rfl, rfl⟩
  · exact ⟨rfl, rfl⟩

theorem prepareFallback_keep (env : Env) (opt : InstallOption) (w : World) :
    (opt.UID ≠ "" → (prepareFallback env opt w).2.1.UID = opt.UID) ∧
    (opt.GID ≠ "" → (prepareFallback env opt w).2.1.GID = opt.GID) := by
  unfold prepareFallback
  split
  · exact ⟨fun _ => rfl, fun _ => rfl⟩
  · split
    · exact ⟨fun _ => rfl, fun _ => rfl⟩
    · by_cases hu : opt.UID = "" <;> by_cases hg : opt.GID = "" <;> simp [hu, hg]

theorem prepare_group_lookup (env : Env) (opt : InstallOption) (w : World) (g : Group)
    (hG : opt.Group ≠ "") (hI : opt.GID = "") (hl : env.lookupGroup opt.Group = some g)
    (hg : g.Gid ≠ "") (hok : (Prepare env opt w).2.2 = none) :
    (Prepare env opt w).2.1.GID = g.Gid := by
  unfold Prepare prepareNames at hok ⊢
  obtain ⟨a1, a2⟩ := prepareOwner_group env opt w
  rcases hp : prepareOwner env opt w with ⟨w1, o1, e1⟩
  rw [hp] at hok a1 a2
  cases e1 with
  | some e => simp at hok
  | none =>
    simp only at hok a1 a2 ⊢
    have hn : prepareGroup env o1 w1
        = (w1.record (.lookupGroup o1.Group), { o1 with GID := g.Gid }, none) := by
      simp [prepareGroup, a1, a2, hG, hI, hl]
    rw [hn] at hok ⊢
    simp only at hok ⊢
    exact (prepareFallback_keep env _ _).2 hg

theorem prepare_lookup_fails (env : Env) (opt : InstallOption) (w : World) :
    (opt.Owner ≠ "" → env.lookupUser opt.Owner = none → (Prepare env opt w).2.2 ≠ none) ∧
    (opt.Group ≠ "" → env.lookupGroup opt.Group = none → (Prepare env opt w).2.2 ≠ none) := by
  refine ⟨fun hO hl => ?_, fun hG hl => ?_⟩
  · by_cases hU : opt.UID = "" <;> simp [Prepare, prepareNames, prepareOwner, hO, hU, hl]
  · unfold Prepare prepareNames
    obtain ⟨a1, a2⟩ := prepareOwner_group env opt w
    rcases hp : prepareOwner env opt w with ⟨w1, o1, e1⟩
    rw [hp] at a1 a2
    cases e1 with
    | some e => simp
    | none =>
      simp only at a1 a2 ⊢
      by_cases hI : o1.GID = "" <;> simp [prepareGroup, a1, hG, hI, hl]

/-! ## Directory creation -/

theorem Clean_ne_empty (p : Path) : Clean p ≠ "" := by
  unfold Clean
  split
  · decide
  · simp only
    split
    · intro h
      have := congrArg String.data h
      simp at this
    · split
      · decide
      · rename_i hb
        intro h
        have := congrArg String.data h
        exact hb (by simpa using this)

theorem Dir_ne_empty (p : Path) : Dir p ≠ "" := Clean_ne_empty _

theorem checkPath_fs (env : Env) (p : Path) (w : World) : (checkPath env p w).1.fs = w.fs := by
  unfold checkPath
  have := osStat_fs env p w
  simp only
  split <;> exact this

theorem checkPath_result (env : Env) (p : Path) (w : World) (hp : p ≠ "")
    (h : (checkPath env p w).2.failed = false) :
    (checkPath env p w).2.doesExist = (w.fs p).isSome ∧
    (checkPath env p w).2.isDir = isDirAt w p := by
  unfold checkPath at h ⊢
  simp only at h ⊢
  split
  · rename_i hs; simp [hs] at h
  · rename_i hs
    have := osStat_result env p w hp (by rw [hs]; simp)
    rw [hs] at this
    unfold isDirAt
    cases hfs : w.fs p with
    | none => simp
    | some n => rw [hfs] at this; simp at this
  · rename_i isDir hs
    have := osStat_result env p w hp (by rw [hs]; simp)
    rw [hs] at this
    unfold isDirAt
    cases hfs : w.fs p with
    | none => rw [hfs] at this; simp at this
    | some n => rw [hfs] at this; simp at this; simp [this]

theorem osMkdir_ne (env : Env) (w : World) (mode : Nat) {p q : Path} (h : q ≠ p) :
    (osMkdir env p mode w).1.fs q = w.fs q := by
  unfold osMkdir
  simp only
  split
  · rfl
  · split
    · rfl
    · split
      · simp [setNode_ne _ _ h]
      · rfl

theorem osMkdir_fail (env : Env) (w : World) (mode : Nat) (p : Path)
    (h : (osMkdir env p mode w).2 = false) : (osMkdir env p mode w).1.fs = w.fs := by
  unfold osMkdir at h ⊢
  simp only at h ⊢
  split
  · rfl
  · split
    · rfl
    · split
      · simp_all
      · rfl

theorem osMkdir_ok (env : Env) (w : World) (mode : Nat) (p : Path)
    (h : (osMkdir env p mode w).2 = true) :
    w.fs p = none ∧
    (osMkdir env p mode w).1.fs p = some (.dir env.euid env.egid (createPerm env mode)) := by
  unfold osMkdir at h ⊢
  simp only at h ⊢
  split
  · simp_all
  · split
    · simp_all
    · rename_i hn
      split
      · exact ⟨hn, setNode_same _ _ _⟩
      · simp_all

/-- The recursion of `mkdirRec` along the chain of parents: when the `k`th
parent of `p` is a directory and the names before it are free, `mkdirRec`
returns within `k + 1` levels; it touches no name outside the chain, and when
it returns no error every name of the chain is a directory of the process,
given to the requested owner by `chown`, with the requested mode minus the
umask. -/
theorem mkdirRec_chain (env : Env) (mode : Nat) (uid gid : Int) :
    ∀ (k fuel : Nat) (p : Path) (w : World), p ≠ "" → k < fuel →
      (∀ i, i < k → w.fs (Dir^[i] p) = none) → isDirAt w (Dir^[k] p) = true →
      ∃ w' e, mkdirRec env fuel p mode uid gid w = some (w', e) ∧
        (∀ q, (∀ i, i < k → q ≠ Dir^[i] p) → w'.fs q = w.fs q) ∧
        (e = none → ∀ i, i < k →
          w'.fs (Dir^[i] p) = some (.dir (chownId uid env.euid) (chownId gid env.egid)
            (createPerm env mode))) := by
  intro k
  induction k with
  | zero =>
    intro fuel p w hp hf _ hdir
    obtain ⟨f, rfl⟩ : ∃ f, fuel = f + 1 := ⟨fuel - 1, by omega⟩
    simp only [Function.iterate_zero, id_eq] at hdir
    have hfs := checkPath_fs env p w
    unfold mkdirRec
    simp only
    by_cases hck : (checkPath env p w).2.failed = true
    · simp only [hck, if_true]
      exact ⟨_, _, rfl, fun q _ => by rw [hfs], fun h => by simp at h⟩
    · simp only [hck]
      obtain ⟨h1, h2⟩ := checkPath_result env p w hp (by simpa using hck)
      have hex : (checkPath env p w).2.doesExist = true := by
        rw [h1]
        unfold isDirAt at hdir
        cases hfs2 : w.fs p with
        | none => rw [hfs2] at hdir; simp at hdir
        | some n => rfl
      rw [hdir] at h2
      simp only [Bool.false_eq_true, if_false, hex, if_true, h2, Bool.not_true]
      exact ⟨_, _, rfl, fun q _ => by rw [hfs], fun _ i hi => by omega⟩
  | succ k ih =>
    intro fuel p w hp hf habs hdir
    obtain ⟨f, rfl⟩ : ∃ f, fuel = f + 1 := ⟨fuel - 1, by omega⟩
    have hfs := checkPath_fs env p w
    have hp0 : w.fs p = none := by
      have := habs 0 (by omega)
      simpa using this
    unfold mkdirRec
    simp only
    by_cases hck : (checkPath env p w).2.failed = true
    · simp only [hck, if_true]
      exact ⟨_, _, rfl, fun q _ => by rw [hfs], fun h => by simp at h⟩
    · simp only [hck]
      obtain ⟨h1, h2⟩ := checkPath_result env p w hp (by simpa using hck)
      rw [hp0] at h1
      simp only [Option.isSome_none] at h1
      simp only [Bool.false_eq_true, if_false, h1]
      obtain ⟨w1, e1, hrec, hframe, hdirs⟩ := ih f (Dir p) (checkPath env p w).1
        (Dir_ne_empty p) (by omega)
        (by
          intro i hi
          rw [hfs, ← Function.iterate_succ_apply]
          exact habs (i + 1) (by omega))
        (by
          unfold isDirAt at hdir ⊢
          rw [hfs, ← Function.iterate_succ_apply]
          exact hdir)
      rw [hrec]
      have hframe' : ∀ q, (∀ i, i < k + 1 → q ≠ Dir^[i] p) → w1.fs q = w.fs q := by
        intro q hq
        rw [hframe q (fun i hi => by
          rw [← Function.iterate_succ_apply]
          exact hq (i + 1) (by omega)), hfs]
      cases e1 with
      | some e => exact ⟨_, _, rfl, hframe', fun h => by simp at h⟩
      | none =>
        simp only
        by_cases hmk : (osMkdir env p mode w1).2 = true
        · obtain ⟨hfree, hnew⟩ := osMkdir_ok env w1 mode p hmk
          have hpne : ∀ i, i < k → p ≠ Dir^[i] (Dir p) := by
            intro i hi heq
            have := hdirs rfl i hi
            rw [← heq, hfree] at this
            simp at this
          simp only [hmk, Bool.not_true, Bool.false_eq_true, if_false]
          by_cases hco : (osChown env p uid gid (osMkdir env p mode w1).1).2 = true
          · obtain ⟨n, hn, hn2⟩ := osChown_same env _ uid gid p hco
            rw [hnew] at hn
            simp only [Option.some.injEq] at hn
            subst hn
            simp only [hco, Bool.not_true, Bool.false_eq_true, if_false]
            refine ⟨_, _, rfl, ?_, ?_⟩
            · intro q hq
              have hqp : q ≠ p := by simpa using hq 0 (by omega)
              rw [osChown_ne env _ uid gid hqp, osMkdir_ne env _ mode hqp]
              exact hframe' q hq
            · intro _ i hi
              cases i with
              | zero => simpa [Node.withOwner] using hn2
              | succ j =>
                have hj : j < k := by omega
                have hne := hpne j hj
                rw [Function.iterate_succ_apply, osChown_ne env _ uid gid (Ne.symm hne),
                  osMkdir_ne env _ mode (Ne.symm hne)]
                exact hdirs rfl j hj
          · simp only [hco, Bool.not_false, if_true]
            refine ⟨_, _, rfl, ?_, fun h => by simp at h⟩
            intro q hq
            have hqp : q ≠ p := by simpa using hq 0 (by omega)
            rw [osChown_ne env _ uid gid hqp, osMkdir_ne env _ mode hqp]
            exact hframe' q hq
        · simp only [hmk, Bool.not_false, if_true]
          refine ⟨_, _, rfl, ?_, fun h => by simp at h⟩
          intro q hq
          rw [osMkdir_fail env w1 mode p (by simpa using hmk)]
          exact hframe' q hq


theorem prepareOwner_mode (env : Env) (o : InstallOption) (w : World) :
    (prepareOwner env o w).2.1.Mode = o.Mode := by
  unfold prepareOwner
  split
  · split
    · rfl
    · split <;> rfl
  · rfl

theorem prepareGroup_mode (env : Env) (o : InstallOption) (w : World) :
    (prepareGroup env o w).2.1.Mode = o.Mode := by
  unfold prepareGroup
  split
  · split
    · rfl
    · split <;> rfl
  · rfl

theorem prepareFallback_mode (env : Env) (o : InstallOption) (w : World) :
    (prepareFallback env o w).2.1.Mode = o.Mode := by
  unfold prepareFallback
  split
  · rfl
  · split
    · rfl
    · simp only
      split <;> split <;> rfl

theorem prepare_mode (env : Env) (o : InstallOption) (w : World) :
    (Prepare env o w).2.1.Mode = o.Mode := by
  unfold Prepare prepareNames
  have h1 := prepareOwner_mode env o w
  rcases hp : prepareOwner env o w with ⟨w1, o1, e⟩
  rw [hp] at h1
  cases e with
  | some e => exact h1
  | none =>
    simp only at h1 ⊢
    have h2 := prepareGroup_mode env o1 w1
    rcases hg : prepareGroup env o1 w1 with ⟨w2, o2, e2⟩
    rw [hg] at h2
    cases e2 with
    | some e => simp only at h2 ⊢; rw [h2, h1]
    | none => simp only at h2 ⊢; rw [prepareFallback_mode, h2, h1]

theorem mkdirIfMissing_ne (env : Env) (dst : Path) (mode : Nat) (ex : Bool) (w : World)
    {q : Path} (h : q ≠ dst) : (mkdirIfMissing env dst mode ex w).1.fs q = w.fs q := by
  unfold mkdirIfMissing
  split
  · rfl
  · exact osMkdir_ne env w mode h

theorem installDirLeaf_ne (env : Env) (dst : Path) (opt : InstallOption) (mode : Nat) (w : World)
    {q : Path} (h : q ≠ dst) : (installDirLeaf env dst opt mode w).1.fs q = w.fs q := by
  have e0 : (checkPath env dst w).1.fs q = w.fs q := by rw [checkPath_fs]
  have e1 := mkdirIfMissing_ne env dst mode (checkPath env dst w).2.doesExist
    (checkPath env dst w).1 h
  have e2 := osChown_ne env (mkdirIfMissing env dst mode (checkPath env dst w).2.doesExist
    (checkPath env dst w).1).1 opt.UIDInt opt.GIDInt h
  have e3 := osChmod_ne env (osChown env dst opt.UIDInt opt.GIDInt
    (mkdirIfMissing env dst mode (checkPath env dst w).2.doesExist
    (checkPath env dst w).1).1).1 mode h
  unfold installDirLeaf
  simp only
  split
  · exact e0
  · split
    · exact e0
    · split
      · rw [e1, e0]
      · split
        · rw [e2, e1, e0]
        · split <;> rw [e3, e2, e1, e0]

/-- When the last part of `InstallDir` returns no error, the destination is a
directory given to the resolved owner by `chown`, with exactly the permission
bits of the mode; `u` and `g` are the owner it had before the `chown`: the one
it had before the call, or the process when the call made it. -/
theorem installDirLeaf_ok (env : Env) (dst : Path) (opt : InstallOption) (mode : Nat) (w : World)
    (hok : (installDirLeaf env dst opt mode w).2 = none) :
    ∃ u g, (w.fs dst = none → u = env.euid ∧ g = env.egid) ∧
      (installDirLeaf env dst opt mode w).1.fs dst
        = some (.dir (chownId opt.UIDInt u) (chownId opt.GIDInt g) (Perm mode)) := by
  unfold installDirLeaf at hok ⊢
  simp only at hok ⊢
  split at hok
  · simp at hok
  · rename_i hf
    split at hok
    · simp at hok
    · rename_i hnd
      split at hok
      · simp at hok
      · rename_i hmk
        split at hok
        · simp at hok
        · rename_i hco
          split at hok
          · simp at hok
          · rename_i hcm
            rw [if_neg hf, if_neg hnd, if_neg hmk, if_neg hco, if_neg hcm]
            have hne := (osChown_ok_env env _ _ _ _ (by simpa using hco)).2
            obtain ⟨r1, r2⟩ := checkPath_result env dst w hne (by simpa using hf)
            have hnode : ∃ u g m, (w.fs dst = none → u = env.euid ∧ g = env.egid) ∧
                (mkdirIfMissing env dst mode (checkPath env dst w).2.doesExist
                (checkPath env dst w).1).1.fs dst = some (.dir u g m) := by
              unfold mkdirIfMissing at hmk ⊢
              by_cases hex : (checkPath env dst w).2.doesExist = true
              · simp only [hex, if_true]
                rw [checkPath_fs]
                simp only [hex, Bool.true_and, Bool.not_eq_true', Bool.not_eq_false] at hnd
                rw [r2] at hnd
                unfold isDirAt at hnd
                cases hfs : w.fs dst with
                | none => rw [hfs] at hnd; simp at hnd
                | some n =>
                  rw [hfs] at hnd
                  cases n with
                  | file d u g m => simp [Node.isDir] at hnd
                  | dir u g m => exact ⟨u, g, m, fun h => by simp at h, rfl⟩
              · simp only [hex] at hmk ⊢
                simp only [Bool.false_eq_true, if_false] at hmk ⊢
                obtain ⟨_, h2⟩ := osMkdir_ok env _ mode dst (by simpa using hmk)
                exact ⟨_, _, _, fun _ => ⟨rfl, rfl⟩, h2⟩
            obtain ⟨u, g, m, hown, hnode⟩ := hnode
            obtain ⟨n, hn, hn2⟩ := osChown_same env _ opt.UIDInt opt.GIDInt dst (by simpa using hco)
            rw [hnode] at hn
            simp only [Option.some.injEq] at hn
            subst hn
            obtain ⟨n', hn', hn2'⟩ := osChmod_same env _ mode dst (by simpa using hcm)
            rw [hn2] at hn'
            simp only [Option.some.injEq] at hn'
            subst hn'
            refine ⟨u, g, hown, ?_⟩
            rw [hn2']
            rfl


theorem setNode_id (w : World) (p : Path) (n : Node) (h : w.fs p = some n) :
    (w.setNode p n).fs = w.fs := by
  funext q
  by_cases hq : q = p
  · subst hq; rw [setNode_same, h]
  · exact setNode_ne w n hq

/-- An option without names that `Prepare` has resolved is resolved again to
itself, whatever its mode. -/
theorem prepare_again (env : Env) (o : InstallOption) (w w' : World) (m : Option Nat)
    (hO : o.Owner = "") (hG : o.Group = "") (hok : (Prepare env o w).2.2 = none) :
    (Prepare env { (Prepare env o w).2.1 with Mode := m } w').2.1
      = { (Prepare env o w).2.1 with Mode := m } ∧
    (Prepare env { (Prepare env o w).2.1 with Mode := m } w').2.2 = none ∧
    (Prepare env { (Prepare env o w).2.1 with Mode := m } w').1.fs = w'.fs ∧
    ∃ l, (Prepare env { (Prepare env o w).2.1 with Mode := m } w').1.log = w'.log ++ l ∧
      ∀ p k, Event.mkdir p k ∉ l := by
  have hn : ∀ (x : InstallOption) (v : World), x.Owner = "" → x.Group = "" →
      Prepare env x v = prepareFallback env x v := by
    intro x v h1 h2
    simp [Prepare, prepareNames, prepareOwner, prepareGroup, h1, h2]
  rw [hn o w hO hG] at hok ⊢
  have hO2 : (prepareFallback env o w).2.1.Owner = "" := by
    unfold prepareFallback
    split
    · exact hO
    · split
      · exact hO
      · simp only; split <;> split <;> exact hO
  have hG2 : (prepareFallback env o w).2.1.Group = "" := by
    unfold prepareFallback
    split
    · exact hG
    · split
      · exact hG
      · simp only; split <;> split <;> exact hG
  rw [hn _ w' (by simpa using hO2) (by simpa using hG2)]
  unfold prepareFallback at hok ⊢
  by_cases hb : o.UID ≠ "" ∧ o.GID ≠ ""
  · simp only [hb, and_self, if_true]
    simp only [ne_eq, hb.1, not_false_eq_true, hb.2, and_self, ↓reduceIte, true_and]
    exact ⟨[], by simp, by simp⟩
  · simp only [hb, if_false] at hok ⊢
    cases hc : env.currentUser with
    | none => simp [hc] at hok
    | some u =>
      simp only
      by_cases h1 : o.UID = "" <;> by_cases h2 : o.GID = "" <;>
        by_cases h3 : u.Uid = "" <;> by_cases h4 : u.Gid = "" <;>
        simp_all [World.record]
  

theorem osStat_world (env : Env) (p : Path) (w : World) :
    (osStat env p w).1 = w.record (Event.stat p) := by
  unfold osStat
  simp only
  split
  · rfl
  · split
    · rfl
    · split <;> rfl

/-- A check that does not fail, on a name that is not empty, was not refused. -/
theorem checkPath_clear (env : Env) (p : Path) (w : World) (hp : p ≠ "")
    (h : (checkPath env p w).2.failed = false) : env.statFails p = false := by
  unfold checkPath osStat at h
  simp only at h
  rw [if_neg hp] at h
  by_cases hf : env.statFails p = true
  · simp [hf] at h
  · simpa using hf

/-- The check of a name that is stored, when the stat is not refused. -/
theorem checkPath_settled (env : Env) (p : Path) (w : World) (n : Node) (hp : p ≠ "")
    (hs : env.statFails p = false) (hfs : w.fs p = some n) :
    checkPath env p w = (w.record (Event.stat p), ⟨true, n.isDir, false⟩) := by
  simp [checkPath, osStat, hp, hs, hfs]

/-- A check that finds the name was made on a name that is not empty. -/
theorem checkPath_exists (env : Env) (p : Path) (w : World)
    (h : (checkPath env p w).2.doesExist = true) : p ≠ "" := by
  intro hp
  subst hp
  simp [checkPath, osStat] at h

theorem osMkdir_ok_env (env : Env) (w : World) (mode : Nat) (p : Path)
    (h : (osMkdir env p mode w).2 = true) : p ≠ "" := by
  unfold osMkdir at h
  simp only at h
  split at h
  · simp at h
  · rename_i hf; exact (refused_false (by simpa using hf)).2

/-- When `mkdirRec` returns no error, the name is a directory, its stat was
not refused, and it is not the empty name. -/
theorem mkdirRec_ok (env : Env) (fuel : Nat) (name : Path) (mode : Nat) (uid gid : Int)
    (w w' : World) (h : mkdirRec env fuel name mode uid gid w = some (w', none)) :
    isDirAt w' name = true ∧ env.statFails name = false ∧ name ≠ "" := by
  cases fuel with
  | zero => simp [mkdirRec] at h
  | succ f =>
    unfold mkdirRec at h
    simp only at h
    by_cases hck : (checkPath env name w).2.failed = true
    · simp [hck] at h
    · simp only [hck, Bool.false_eq_true, if_false] at h
      by_cases hex : (checkPath env name w).2.doesExist = true
      · have hne := checkPath_exists env name w hex
        have hsf := checkPath_clear env name w hne (by simpa using hck)
        obtain ⟨r1, r2⟩ := checkPath_result env name w hne (by simpa using hck)
        simp only [hex, if_true] at h
        by_cases hd : (checkPath env name w).2.isDir = true
        · simp only [hd, Bool.not_true, Bool.false_eq_true, if_false, Option.some.injEq,
            Prod.mk.injEq, and_true] at h
          subst h
          refine ⟨?_, hsf, hne⟩
          rw [r2] at hd
          unfold isDirAt at hd ⊢
          rw [checkPath_fs]
          exact hd
        · simp [hd] at h
      · simp only [hex, Bool.false_eq_true, if_false] at h
        rcases hr : mkdirRec env f (Dir name) mode uid gid (checkPath env name w).1
          with _ | ⟨w1, e1⟩
        · simp [hr] at h
        · rw [hr] at h
          cases e1 with
          | some e => simp at h
          | none =>
            simp only at h
            by_cases hmk : (osMkdir env name mode w1).2 = true
            · obtain ⟨_, hnew⟩ := osMkdir_ok env w1 mode name hmk
              have hne := osMkdir_ok_env env w1 mode name hmk
              have hsf := checkPath_clear env name w hne (by simpa using hck)
              simp only [hmk, Bool.not_true, Bool.false_eq_true, if_false] at h
              by_cases hco : (osChown env name uid gid (osMkdir env name mode w1).1).2 = true
              · obtain ⟨n, hn, hn2⟩ := osChown_same env _ uid gid name hco
                simp only [hco, Bool.not_true, Bool.false_eq_true, if_false, Option.some.injEq,
                  Prod.mk.injEq, and_true] at h
                subst h
                rw [hnew] at hn
                simp only [Option.some.injEq] at hn
                subst hn
                refine ⟨?_, hsf, hne⟩
                unfold isDirAt
                rw [hn2]
                rfl
              · simp [hco] at h
            · simp [hmk] at h


/-- The outcome of `Prepare` does not depend on the world; the world keeps its
file system and gains lookups only. -/
theorem prepare_indep (env : Env) (o : InstallOption) (w w' : World) :
    (Prepare env o w').2 = (Prepare env o w).2 ∧
    ∃ l, (Prepare env o w').1.log = w'.log ++ l ∧ ∀ p k, Event.mkdir p k ∉ l := by
  have hO : ∀ v : World, (prepareOwner env o v).2 = (prepareOwner env o w).2 ∧
      ∃ l, (prepareOwner env o v).1.log = v.log ++ l ∧ ∀ p k, Event.mkdir p k ∉ l := by
    intro v
    unfold prepareOwner
    split
    · split
      · exact ⟨rfl, [], by simp, by simp⟩
      · split
        · exact ⟨rfl, [_], rfl, by simp⟩
        · exact ⟨rfl, [_], rfl, by simp⟩
    · exact ⟨rfl, [], by simp, by simp⟩
  have hG : ∀ (x : InstallOption) (v v' : World),
      (prepareGroup env x v').2 = (prepareGroup env x v).2 ∧
      ∃ l, (prepareGroup env x v').1.log = v'.log ++ l ∧ ∀ p k, Event.mkdir p k ∉ l := by
    intro x v v'
    unfold prepareGroup
    split
    · split
      · exact ⟨rfl, [], by simp, by simp⟩
      · split
        · exact ⟨rfl, [_], rfl, by simp⟩
        · exact ⟨rfl, [_], rfl, by simp⟩
    · exact ⟨rfl, [], by simp, by simp⟩
  have hF : ∀ (x : InstallOption) (v v' : World),
      (prepareFallback env x v').2 = (prepareFallback env x v).2 ∧
      ∃ l, (prepareFallback env x v').1.log = v'.log ++ l ∧ ∀ p k, Event.mkdir p k ∉ l := by
    intro x v v'
    unfold prepareFallback
    split
    · exact ⟨rfl, [], by simp, by simp⟩
    · split
      · exact ⟨rfl, [_], rfl, by simp⟩
      · exact ⟨rfl, [_], rfl, by simp⟩
  unfold Prepare prepareNames
  obtain ⟨a1, l1, a2, a3⟩ := hO w'
  rcases hp : prepareOwner env o w with ⟨w1, o1, e1⟩
  rcases hp' : prepareOwner env o w' with ⟨w1', o1', e1'⟩
  rw [hp, hp'] at a1
  rw [hp'] at a2
  simp only [Prod.mk.injEq] at a1
  obtain ⟨rfl, rfl⟩ := a1
  cases e1' with
  | some e => exact ⟨rfl, l1, a2, a3⟩
  | none =>
    simp only at a2 ⊢
    obtain ⟨b1, l2, b2, b3⟩ := hG o1' w1 w1'
    rcases hq : prepareGroup env o1' w1 with ⟨w2, o2, e2⟩
    rcases hq' : prepareGroup env o1' w1' with ⟨w2', o2', e2'⟩
    rw [hq, hq'] at b1
    rw [hq'] at b2
    simp only [Prod.mk.injEq] at b1
    obtain ⟨rfl, rfl⟩ := b1
    cases e2' with
    | some e =>
      refine ⟨rfl, l1 ++ l2, ?_, ?_⟩
      · simp only at b2 ⊢; rw [b2, a2, List.append_assoc]
      · intro p k; simp [a3 p k, b3 p k]
    | none =>
      simp only at b2 ⊢
      obtain ⟨c1, l3, c2, c3⟩ := hF o2' w2 w2'
      refine ⟨c1, l1 ++ l2 ++ l3, ?_, ?_⟩
      · rw [c2, b2, a2, List.append_assoc, List.append_assoc, List.append_assoc]
      · intro p k; simp [a3 p k, b3 p k, c3 p k]

/-- When the last part of `InstallDir` returns no error, the destination is
not the empty name and none of its calls on the destination was refused. -/
theorem installDirLeaf_ok_env (env : Env) (dst : Path) (opt : InstallOption) (mode : Nat)
    (w : World) (hok : (installDirLeaf env dst opt mode w).2 = none) :
    dst ≠ "" ∧ env.statFails dst = false ∧ env.chownFails dst opt.UIDInt opt.GIDInt = false ∧
    env.chmodFails dst mode = false := by
  unfold installDirLeaf at hok
  simp only at hok
  split at hok
  · simp at hok
  · rename_i hf
    split at hok
    · simp at hok
    · split at hok
      · simp at hok
      · split at hok
        · simp at hok
        · rename_i hco
          split at hok
          · simp at hok
          · rename_i hcm
            have hc := osChown_ok_env env _ _ _ _ (by simpa using hco)
            exact ⟨hc.2, checkPath_clear env dst w hc.2 (by simpa using hf), hc.1,
              (osChmod_ok_env env _ _ _ (by simpa using hcm)).1⟩

/-- On a destination that already is a directory with the owner that `chown`
gives it and the mode asked for, the last part of `InstallDir` changes nothing
and makes no directory. -/
theorem installDirLeaf_settled (env : Env) (dst : Path) (opt : InstallOption) (mode : Nat)
    (w : World) (u g : Int) (hne : dst ≠ "")
    (hfs : w.fs dst = some (.dir (chownId opt.UIDInt u) (chownId opt.GIDInt g) (Perm mode)))
    (h1 : env.statFails dst = false) (h2 : env.chownFails dst opt.UIDInt opt.GIDInt = false)
    (h3 : env.chmodFails dst mode = false) :
    (installDirLeaf env dst opt mode w).2 = none ∧
    (installDirLeaf env dst opt mode w).1.fs = w.fs ∧
    (installDirLeaf env dst opt mode w).1.log
      = w.log ++ [Event.stat dst, Event.chown dst opt.UIDInt opt.GIDInt, Event.chmod dst mode] := by
  have hck : checkPath env dst w = (w.record (Event.stat dst), ⟨true, true, false⟩) := by
    rw [checkPath_settled env dst w _ hne h1 hfs]
    rfl
  have hco : osChown env dst opt.UIDInt opt.GIDInt (w.record (Event.stat dst))
      = (((w.record (Event.stat dst)).record (Event.chown dst opt.UIDInt opt.GIDInt)).setNode dst
          (.dir (chownId opt.UIDInt u) (chownId opt.GIDInt g) (Perm mode)), true) := by
    simp [osChown, refused, h2, hne, hfs, Node.withOwner, chownId_idem]
  have hcm : osChmod env dst mode
      (((w.record (Event.stat dst)).record (Event.chown dst opt.UIDInt opt.GIDInt)).setNode dst
          (.dir (chownId opt.UIDInt u) (chownId opt.GIDInt g) (Perm mode)))
      = (((((w.record (Event.stat dst)).record (Event.chown dst opt.UIDInt opt.GIDInt)).setNode dst
          (.dir (chownId opt.UIDInt u) (chownId opt.GIDInt g) (Perm mode))).record
            (Event.chmod dst mode)).setNode dst
          (.dir (chownId opt.UIDInt u) (chownId opt.GIDInt g) (Perm mode)), true) := by
    simp [osChmod, refused, h3, hne, Node.withPerm]
  have hleaf : installDirLeaf env dst opt mode w
      = (((((w.record (Event.stat dst)).record (Event.chown dst opt.UIDInt opt.GIDInt)).setNode dst
          (.dir (chownId opt.UIDInt u) (chownId opt.GIDInt g) (Perm mode))).record
            (Event.chmod dst mode)).setNode dst
          (.dir (chownId opt.UIDInt u) (chownId opt.GIDInt g) (Perm mode)), none) := by
    simp [installDirLeaf, hck, mkdirIfMissing, hco, hcm]
  rw [hleaf]
  refine ⟨rfl, ?_, ?_⟩
  · funext q
    by_cases hq : q = dst
    · subst hq; simp [World.setNode, hfs]
    · simp [World.setNode, World.record, hq]
  · simp [World.setNode, World.record]

/-- On a parent that already is a directory, `mkdirRec` only looks. -/
theorem mkdirRec_settled (env : Env) (fuel : Nat) (name : Path) (mode : Nat) (uid gid : Int)
    (w : World) (hf : 1 ≤ fuel) (hne : name ≠ "") (hdir : isDirAt w name = true)
    (hs : env.statFails name = false) :
    mkdirRec env fuel name mode uid gid w = some (w.record (Event.stat name), none) := by
  obtain ⟨f, rfl⟩ : ∃ f, fuel = f + 1 := ⟨fuel - 1, by omega⟩
  unfold isDirAt at hdir
  cases hfs : w.fs name with
  | none => rw [hfs] at hdir; simp at hdir
  | some n =>
    rw [hfs] at hdir
    simp only at hdir
    unfold mkdirRec
    simp [checkPath_settled env name w n hne hs hfs, hdir]


/-- The second `Prepare` of a repeated `InstallDir`: on the option the first
call left behind (or on nil again) it resolves to the same option, when the
option names no owner and no group. -/
theorem prepare_second (env : Env) (opt : Option InstallOption) (w w' : World)
    (hnames : ∀ o, opt = some o → o.Owner = "" ∧ o.Group = "")
    (hok : (Prepare env (opt.getD InstallOption.zero) w).2.2 = none) :
    (Prepare env ((opt.map (fun _ => ({ (Prepare env (opt.getD InstallOption.zero) w).2.1 with
        Mode := some ((Prepare env (opt.getD InstallOption.zero) w).2.1.Mode.getD defaultModeDir) }
          : InstallOption))).getD InstallOption.zero) w').2.2 = none ∧
    ({ (Prepare env ((opt.map (fun _ => ({ (Prepare env (opt.getD InstallOption.zero) w).2.1 with
        Mode := some ((Prepare env (opt.getD InstallOption.zero) w).2.1.Mode.getD defaultModeDir) }
          : InstallOption))).getD InstallOption.zero) w').2.1 with
        Mode := some ((Prepare env (opt.getD InstallOption.zero) w).2.1.Mode.getD defaultModeDir) }
          : InstallOption)
      = { (Prepare env (opt.getD InstallOption.zero) w).2.1 with
        Mode := some ((Prepare env (opt.getD InstallOption.zero) w).2.1.Mode.getD defaultModeDir) } ∧
    (Prepare env ((opt.map (fun _ => ({ (Prepare env (opt.getD InstallOption.zero) w).2.1 with
        Mode := some ((Prepare env (opt.getD InstallOption.zero) w).2.1.Mode.getD defaultModeDir) }
          : InstallOption))).getD InstallOption.zero) w').2.1.Mode.getD defaultModeDir
      = (Prepare env (opt.getD InstallOption.zero) w).2.1.Mode.getD defaultModeDir ∧
    ∃ l, (Prepare env ((opt.map (fun _ => ({ (Prepare env (opt.getD InstallOption.zero) w).2.1 with
        Mode := some ((Prepare env (opt.getD InstallOption.zero) w).2.1.Mode.getD defaultModeDir) }
          : InstallOption))).getD InstallOption.zero) w').1.log = w'.log ++ l ∧
      ∀ p k, Event.mkdir p k ∉ l := by
  cases opt with
  | none =>
    simp only [Option.map_none', Option.getD_none] at hok ⊢
    obtain ⟨h1, l, h2, h3⟩ := prepare_indep env InstallOption.zero w w'
    rw [h1]
    exact ⟨hok, rfl, rfl, l, h2, h3⟩
  | some o0 =>
    obtain ⟨hO, hG⟩ := hnames o0 rfl
    simp only [Option.map_some', Option.getD_some] at hok ⊢
    obtain ⟨a1, a2, _, l, a4, a5⟩ := prepare_again env o0 w w'
      (some ((Prepare env o0 w).2.1.Mode.getD defaultModeDir)) hO hG hok
    rw [a1]
    exact ⟨a2, rfl, rfl, l, a4, a5⟩

/-- A name that is its own `i`th parent has only finitely many parents: its
`k`th parent is one of the first `i`. -/
theorem parent_cycle (dst : Path) (i k : Nat) (h : Dir^[i] dst = dst) :
    Dir^[k] dst = Dir^[k % i] dst := by
  have hp : Function.IsPeriodicPt Dir i dst := h
  exact (hp.iterate_mod_apply k).symm

/-! ## The call log -/

theorem prepareOwner_calls (env : Env) (o : InstallOption) (w : World) :
    ∃ l, (prepareOwner env o w).1.log = w.log ++ l ∧ ∀ a b, Event.rename a b ∉ l := by
  unfold prepareOwner
  split
  · split
    · exact ⟨[], by simp, by simp⟩
    · split
      · exact ⟨[_], rfl, by simp⟩
      · exact ⟨[_], rfl, by simp⟩
  · exact ⟨[], by simp, by simp⟩

theorem prepareGroup_calls (env : Env) (o : InstallOption) (w : World) :
    ∃ l, (prepareGroup env o w).1.log = w.log ++ l ∧ ∀ a b, Event.rename a b ∉ l := by
  unfold prepareGroup
  split
  · split
    · exact ⟨[], by simp, by simp⟩
    · split
      · exact ⟨[_], rfl, by simp⟩
      · exact ⟨[_], rfl, by simp⟩
  · exact ⟨[], by simp, by simp⟩

theorem prepareFallback_calls (env : Env) (o : InstallOption) (w : World) :
    ∃ l, (prepareFallback env o w).1.log = w.log ++ l ∧ ∀ a b, Event.rename a b ∉ l := by
  unfold prepareFallback
  split
  · exact ⟨[], by simp, by simp⟩
  · split
    · exact ⟨[_], rfl, by simp⟩
    · exact ⟨[_], rfl, by simp⟩

/-- The calls of `Prepare` are lookups: it renames nothing. -/
theorem prepare_calls (env : Env) (o : InstallOption) (w : World) :
    ∃ l, (Prepare env o w).1.log = w.log ++ l ∧ ∀ a b, Event.rename a b ∉ l := by
  unfold Prepare prepareNames
  obtain ⟨l1, a2, a3⟩ := prepareOwner_calls env o w
  rcases hp : prepareOwner env o w with ⟨w1, o1, e1⟩
  rw [hp] at a2
  cases e1 with
  | some e => exact ⟨l1, a2, a3⟩
  | none =>
    simp only at a2 ⊢
    obtain ⟨l2, b2, b3⟩ := prepareGroup_calls env o1 w1
    rcases hq : prepareGroup env o1 w1 with ⟨w2, o2, e2⟩
    rw [hq] at b2
    cases e2 with
    | some e =>
      refine ⟨l1 ++ l2, ?_, ?_⟩
      · simp only at b2 ⊢; rw [b2, a2, List.append_assoc]
      · intro a b; simp [a3 a b, b3 a b]
    | none =>
      simp only at b2 ⊢
      obtain ⟨l3, c2, c3⟩ := prepareFallback_calls env o2 w2
      refine ⟨l1 ++ l2 ++ l3, ?_, ?_⟩
      · rw [c2, b2, a2]; simp [List.append_assoc]
      · intro a b; simp [a3 a b, b3 a b, c3 a b]

theorem osOpen_world (env : Env) (p : Path) (w : World) :
    (osOpen env p w).1 = w.record (Event.openRead p) := by
  unfold osOpen
  split <;> rfl

theorem osCreate_log (env : Env) (p : Path) (w : World) :
    (osCreate env p w).1.log = w.log ++ [Event.create p] := by
  unfold osCreate
  split
  · rfl
  · split
    · rfl
    · rfl
    · split <;> rfl

theorem fileWrite_log (env : Env) (p : Path) (c : List Byte) (w : World) :
    (fileWrite env p c w).1.log = w.log ++ [Event.write p c.length] := by
  unfold fileWrite
  split
  · split
    · rfl
    · split <;> rfl
  · rfl

theorem ioCopy_log (env : Env) (src tmp : Path) (w : World) :
    ∃ l, (ioCopy env src tmp w).1.log = w.log ++ l ∧ ∀ a b, Event.rename a b ∉ l := by
  rcases ioCopy_world env w src tmp with h | ⟨c, h⟩
  · exact ⟨[], by rw [h]; simp, by simp⟩
  · exact ⟨[_], by rw [h, fileWrite_log], by simp⟩

theorem osChown_log (env : Env) (p : Path) (uid gid : Int) (w : World) :
    (osChown env p uid gid w).1.log = w.log ++ [Event.chown p uid gid] := by
  unfold osChown
  split
  · rfl
  · split <;> rfl

theorem osChmod_log (env : Env) (p : Path) (mode : Nat) (w : World) :
    (osChmod env p mode w).1.log = w.log ++ [Event.chmod p mode] := by
  unfold osChmod
  split
  · rfl
  · split <;> rfl

theorem chmodIfSet_log (env : Env) (p : Path) (mode : Option Nat) (w : World) :
    ∃ l, (chmodIfSet env p mode w).1.log = w.log ++ l ∧ ∀ a b, Event.rename a b ∉ l := by
  unfold chmodIfSet
  split
  · exact ⟨[], by simp, by simp⟩
  · simp only
    split <;> exact ⟨[_], osChmod_log env p _ w, by simp⟩

theorem osRename_log (env : Env) (old new : Path) (w : World) :
    (osRename env old new w).1.log = w.log ++ [Event.rename old new] := by
  unfold osRename
  split
  · rfl
  · split
    · split
      · rfl
      · split
        · split <;> rfl
        · rfl
    · rfl

theorem osRemoveAll_log (env : Env) (p : Path) (w : World) :
    (osRemoveAll env p w).log = w.log ++ [Event.removeAll p] := by
  unfold osRemoveAll
  split
  · rfl
  · split <;> rfl

/-- The calls of the body of `InstallFile`: a rename among them is the rename
of the temporary file onto the destination, and it is made only after a copy
that returned no error. -/
theorem body_calls (env : Env) (src dst tmp : Path) (opt : InstallOption) (w : World) :
    ∃ l, (installFileBody env src dst tmp opt w).1.log = w.log ++ l ∧
      ∀ a b, Event.rename a b ∈ l →
        a = tmp ∧ b = dst ∧ (ioCopy env src tmp w).2.2 = false := by
  obtain ⟨l1, h1, n1⟩ := ioCopy_log env src tmp w
  have h2 : (bufFlush env tmp (ioCopy env src tmp w).2.1 (ioCopy env src tmp w).1)
      = ((ioCopy env src tmp w).1, false) := by
    rw [ioCopy_pending, bufFlush_nil]
  have h3 := osChown_log env tmp opt.UIDInt opt.GIDInt (ioCopy env src tmp w).1
  obtain ⟨l4, h4, n4⟩ := chmodIfSet_log env tmp opt.Mode
    (osChown env tmp opt.UIDInt opt.GIDInt (ioCopy env src tmp w).1).1
  have h5 := osRename_log env tmp dst (chmodIfSet env tmp opt.Mode
    (osChown env tmp opt.UIDInt opt.GIDInt (ioCopy env src tmp w).1).1).1
  unfold installFileBody
  simp only [h2]
  split
  · exact ⟨l1, h1, fun a b hab => absurd hab (n1 a b)⟩
  · rename_i hcp
    have hcp' : (ioCopy env src tmp w).2.2 = false := by simpa using hcp
    split
    · refine ⟨l1 ++ [Event.chown tmp opt.UIDInt opt.GIDInt], ?_, ?_⟩
      · rw [h3, h1, List.append_assoc]
      · intro a b hab
        simp [n1 a b] at hab
    · split
      · refine ⟨l1 ++ [Event.chown tmp opt.UIDInt opt.GIDInt] ++ l4, ?_, ?_⟩
        · rw [h4, h3, h1]; simp [List.append_assoc]
        · intro a b hab
          simp [n1 a b, n4 a b] at hab
      · have hl : ∀ a b, Event.rename a b ∈
            l1 ++ [Event.chown tmp opt.UIDInt opt.GIDInt] ++ l4 ++ [Event.rename tmp dst] →
            a = tmp ∧ b = dst ∧ (ioCopy env src tmp w).2.2 = false := by
          intro a b hab
          simp [n1 a b, n4 a b] at hab
          exact ⟨hab.1, hab.2, hcp'⟩
        split
        · refine ⟨_, ?_, hl⟩
          rw [h5, h4, h3, h1]
          simp [List.append_assoc]
        · refine ⟨_, ?_, hl⟩
          rw [h5, h4, h3, h1]
          simp [List.append_assoc]

theorem newLog_append (w w' : World) (l : List Event) (h : w'.log = w.log ++ l) :
    newLog w w' = l := by
  unfold newLog
  rw [h, List.drop_left]

/-- A call of `InstallFile` that gets as far as the copy is the body run on the
world at the copy, followed by the removal of the temporary name. -/
theorem InstallFile_reached (env : Env) (src d : Path) (opt : Option InstallOption) (w : World)
    (h : reachesCopy env src d opt w = true) :
    (InstallFile env src d opt w).err
      = (installFileBody env src (copyDst env src d opt w) (copyTmp env src d opt w)
          (resolvedOption env opt w) (worldAtCopy env src d opt w)).2 ∧
    (InstallFile env src d opt w).world
      = osRemoveAll env (copyTmp env src d opt w)
          (installFileBody env src (copyDst env src d opt w) (copyTmp env src d opt w)
            (resolvedOption env opt w) (worldAtCopy env src d opt w)).1 := by
  unfold reachesCopy at h
  simp only [Bool.and_eq_true, Option.isNone_iff_eq_none, decide_eq_true_eq] at h
  obtain ⟨⟨⟨h1, h2⟩, h3⟩, h4⟩ := h
  unfold copyTmp copyDst at h4
  unfold InstallFile worldAtCopy copyTmp copyDst resolvedOption
  simp [h1, h2, h3, h4]

/-- The calls of `InstallFile`: it renames only when it got as far as the copy
and the copy returned no error, and then it renames the temporary file onto the
effective destination. -/
theorem InstallFile_calls (env : Env) (src d : Path) (opt : Option InstallOption) (w : World) :
    ∃ l, (InstallFile env src d opt w).world.log = w.log ++ l ∧
      ∀ a b, Event.rename a b ∈ l →
        reachesCopy env src d opt w = true ∧ a = copyTmp env src d opt w ∧
        b = copyDst env src d opt w ∧
        (ioCopy env src (copyTmp env src d opt w) (worldAtCopy env src d opt w)).2.2 = false := by
  obtain ⟨l1, h1, n1⟩ := prepare_calls env (opt.getD InstallOption.zero) w
  have h2 := osStat_world env d (Prepare env (opt.getD InstallOption.zero) w).1
  have h3 := osOpen_world env src (osStat env d (Prepare env (opt.getD InstallOption.zero) w).1).1
  have h4 := osCreate_log env (copyTmp env src d opt w)
    (osOpen env src (osStat env d (Prepare env (opt.getD InstallOption.zero) w).1).1).1
  by_cases hr : reachesCopy env src d opt w = true
  · obtain ⟨_, hw⟩ := InstallFile_reached env src d opt w hr
    obtain ⟨l5, h5, n5⟩ := body_calls env src (copyDst env src d opt w) (copyTmp env src d opt w)
      (resolvedOption env opt w) (worldAtCopy env src d opt w)
    refine ⟨l1 ++ [Event.stat d, Event.openRead src, Event.create (copyTmp env src d opt w)] ++ l5
      ++ [Event.removeAll (copyTmp env src d opt w)], ?_, ?_⟩
    · rw [hw, osRemoveAll_log, h5]
      unfold worldAtCopy
      rw [h4, h3, World.record, h2, World.record, h1]
      simp [List.append_assoc]
    · intro a b hab
      simp [n1 a b] at hab
      obtain ⟨e1, e2, e3⟩ := n5 a b hab
      exact ⟨hr, e1, e2, e3⟩
  · have hnone : ∃ l, (InstallFile env src d opt w).world.log = w.log ++ l ∧
        ∀ a b, Event.rename a b ∉ l := by
      unfold reachesCopy at hr
      unfold copyTmp copyDst at h4 hr
      unfold InstallFile
      simp only
      split
      · exact ⟨l1, h1, n1⟩
      · rename_i hp
        split
        · refine ⟨l1 ++ [Event.stat d], ?_, ?_⟩
          · rw [h2, World.record, h1]; simp [List.append_assoc]
          · intro a b; simp [n1 a b]
        · rename_i hs
          split
          · refine ⟨l1 ++ [Event.stat d, Event.openRead src], ?_, ?_⟩
            · rw [h3, World.record, h2, World.record, h1]; simp [List.append_assoc]
            · intro a b; simp [n1 a b]
          · rename_i ho
            split
            · refine ⟨l1 ++ [Event.stat d, Event.openRead src, Event.create (tmpPath env
                (effectiveDst src d (osStat env d (Prepare env (opt.getD InstallOption.zero) w).1).2))],
                ?_, ?_⟩
              · rw [h4, h3, World.record, h2, World.record, h1]; simp [List.append_assoc]
              · intro a b; simp [n1 a b]
            · rename_i hc
              exfalso
              apply hr
              simp only [Bool.and_eq_true, Option.isNone_iff_eq_none, decide_eq_true_eq]
              exact ⟨⟨⟨hp, hs⟩, by simpa using ho⟩, by simpa using hc⟩
    obtain ⟨l, hl, nl⟩ := hnone
    exact ⟨l, hl, fun a b hab => absurd hab (nl a b)⟩

/-- When the copy of `InstallFile` returns no error, the temporary file holds,
at the time of the rename, all the bytes the source holds when the copy
starts. -/
theorem rename_content (env : Env) (src d : Path) (opt : Option InstallOption) (w : World)
    (hr : reachesCopy env src d opt w = true)
    (hok : (ioCopy env src (copyTmp env src d opt w) (worldAtCopy env src d opt w)).2.2 = false) :
    ∃ b, contentAt (worldAtCopy env src d opt w) src = some b ∧
      contentAt (worldAtRename env src d opt w) (copyTmp env src d opt w) = some b := by
  have hcr : (osCreate env (copyTmp env src d opt w)
      (osOpen env src (osStat env d (Prepare env (opt.getD InstallOption.zero) w).1).1).1).2
      = true := by
    unfold reachesCopy at hr
    simp only [Bool.and_eq_true] at hr
    exact hr.2
  obtain ⟨u, g, m, hfile⟩ := osCreate_ok env _ _ hcr
  obtain ⟨b, hb, hc⟩ := copy_content env (worldAtCopy env src d opt w) src
    (copyTmp env src d opt w) u g m hfile hok
  refine ⟨b, hb, ?_⟩
  unfold worldAtRename
  rw [ioCopy_pending, bufFlush_nil]
  have h3 : ∃ u' g', (osChown env (copyTmp env src d opt w) (resolvedOption env opt w).UIDInt
      (resolvedOption env opt w).GIDInt
      (ioCopy env src (copyTmp env src d opt w) (worldAtCopy env src d opt w)).1).1.fs
        (copyTmp env src d opt w) = some (.file b u' g' m) := by
    by_cases hco : (osChown env (copyTmp env src d opt w) (resolvedOption env opt w).UIDInt
      (resolvedOption env opt w).GIDInt
      (ioCopy env src (copyTmp env src d opt w) (worldAtCopy env src d opt w)).1).2 = true
    · obtain ⟨n, hn, hn2⟩ := osChown_same env _ _ _ _ hco
      rw [hc] at hn
      simp only [Option.some.injEq] at hn
      subst hn
      exact ⟨_, _, hn2⟩
    · rw [osChown_fail env _ _ _ _ (by simpa using hco)]
      exact ⟨_, _, hc⟩
  obtain ⟨u3, g3, h3⟩ := h3
  obtain ⟨m4, h4⟩ := chmodIfSet_same env _ (resolvedOption env opt w).Mode
    (copyTmp env src d opt w) b u3 g3 m h3
  unfold contentAt
  rw [h4]

theorem digitChar_ne_a (m : Nat) (h : m < 10) : Nat.digitChar m ≠ 'a' := by
  interval_cases m <;> decide

theorem toDigitsCore_no_a (fuel n : Nat) (ds : List Char) (h : 'a' ∉ ds) :
    'a' ∉ Nat.toDigitsCore 10 fuel n ds := by
  induction fuel generalizing n ds with
  | zero => simpa [Nat.toDigitsCore] using h
  | succ f ih =>
    have hd : 'a' ∉ Nat.digitChar (n % 10) :: ds := by
      simp only [List.mem_cons, not_or]
      exact ⟨(digitChar_ne_a _ (Nat.mod_lt _ (by norm_num))).symm, h⟩
    simp only [Nat.toDigitsCore]
    split
    · exact hd
    · exact ih _ _ hd

/-- The decimal numeral of a number holds no letter. -/
theorem numeral_no_letter (n : Nat) : 'a' ∉ (toString n).data := by
  show 'a' ∉ (Nat.repr n).data
  unfold Nat.repr Nat.toDigits
  exact toDigitsCore_no_a _ _ _ (by simp)

/-! ## The claims about `InstallFile` -/

/-- C1 (counterexample). Process 42 installs to the free name `/d/2`; the
source is the file named `/d/2.install.42`, which holds three bytes.  That name
is the temporary name of the call: `os.Create` truncates it before the copy
reads it.  The call returns no error and `/d/2` ends up empty. -/
theorem C1_round_trip_counterexample :
    CleanPath "/d/2.install.42" = true ∧ CleanPath "/d/2" = true ∧
    tmpPath sampleEnv "/d/2" = "/d/2.install.42" ∧
    contentAt aliasWorld "/d/2.install.42" = some [1, 2, 3] ∧
    aliasWorld.fs "/d/2" = none ∧
    (InstallFile sampleEnv "/d/2.install.42" "/d/2" none aliasWorld).err = none ∧
    contentAt (InstallFile sampleEnv "/d/2.install.42" "/d/2" none aliasWorld).world "/d/2"
      = some [] := by
  decide

/-- C1 (amended). Round trip of `InstallFile`, for clean absolute names: when
the source holds the bytes `b`, the destination name is free and the source is
not the temporary name `dst.install.pid`, a call that returns no error leaves a
destination holding exactly `b`; for a nil option and for any option. -/
theorem C1_install_file_round_trip (env : Env) (src dst : Path) (opt : Option InstallOption)
    (w : World) (b : List Byte)
    (hcs : CleanPath src = true) (hcd : CleanPath dst = true)
    (hsrc : contentAt w src = some b) (hdst : w.fs dst = none)
    (hsne : src ≠ tmpPath env dst)
    (hok : (InstallFile env src dst opt w).err = none) :
    contentAt (InstallFile env src dst opt w).world dst = some b := by
  have _ := hcs
  have hd : destOf w src dst = dst := by
    unfold destOf isDirAt
    simp [hdst]
  have h := (InstallFile_spec env src dst opt w (cleanPath_ne_empty hcd)).2.2.2.2 hok
  rw [hd] at h
  exact h.2.2.2 b hsrc hsne

/-- C1 (witness). The amended round trip at `/d/1` to `/d/2`, nil option. -/
theorem C1_install_file_round_trip_witness :
    (CleanPath "/d/1" = true ∧ CleanPath "/d/2" = true ∧
      contentAt plainWorld "/d/1" = some [1, 2, 3] ∧ plainWorld.fs "/d/2" = none ∧
      "/d/1" ≠ tmpPath sampleEnv "/d/2" ∧
      (InstallFile sampleEnv "/d/1" "/d/2" none plainWorld).err = none) ∧
    contentAt (InstallFile sampleEnv "/d/1" "/d/2" none plainWorld).world "/d/2"
      = some [1, 2, 3] :=
  ⟨by decide,
    C1_install_file_round_trip sampleEnv "/d/1" "/d/2" none plainWorld [1, 2, 3]
      (by decide) (by decide) (by decide) (by decide) (by decide) (by decide)⟩

/-- C2 (counterexample). Process 42 installs `/a/c.txt` into the directory `/d`
and returns no error.  The bytes are written to `/d/c.txt.install.42`, not to
`/d/c.txt` (which gets them by the rename), and the file that was stored under
`/d/c.txt.install.42` before the call is gone: the source's bytes were written
to another path, and a path other than `/d/c.txt` has changed. -/
theorem C2_into_directory_counterexample :
    CleanPath "/a/c.txt" = true ∧ CleanPath "/d" = true ∧
    isDirAt treeWorld "/d" = true ∧
    Join "/d" (Base "/a/c.txt") = "/d/c.txt" ∧
    contentAt treeWorld "/a/c.txt" = some [1, 2, 3] ∧
    contentAt treeWorld "/d/c.txt.install.42" = some [7, 7] ∧
    (InstallFile sampleEnv "/a/c.txt" "/d" none treeWorld).err = none ∧
    Event.write "/d/c.txt.install.42" 3
      ∈ (InstallFile sampleEnv "/a/c.txt" "/d" none treeWorld).world.log ∧
    Event.write "/d/c.txt" 3
      ∉ (InstallFile sampleEnv "/a/c.txt" "/d" none treeWorld).world.log ∧
    (InstallFile sampleEnv "/a/c.txt" "/d" none treeWorld).world.fs "/d/c.txt.install.42"
      = none := by
  decide

/-- C2 (amended). Redirection of `InstallFile` into a directory, for clean
absolute names: when `d` is a directory and the source holds `b`, a call that
returns no error leaves `b` under `Join d (Base src)`, leaves `d` a directory,
leaves nothing under the temporary name `Join d (Base src)` with
`.install.pid` appended, and leaves every other path as it was. -/
theorem C2_install_file_into_directory (env : Env) (src d : Path) (opt : Option InstallOption)
    (w : World) (b : List Byte)
    (hcs : CleanPath src = true) (hcd : CleanPath d = true)
    (hsrc : contentAt w src = some b) (hdir : isDirAt w d = true)
    (hok : (InstallFile env src d opt w).err = none) :
    contentAt (InstallFile env src d opt w).world (Join d (Base src)) = some b ∧
    isDirAt (InstallFile env src d opt w).world d = true ∧
    (InstallFile env src d opt w).world.fs (tmpPath env (Join d (Base src))) = none ∧
    ∀ q, CleanPath q = true → q ≠ Join d (Base src) → q ≠ tmpPath env (Join d (Base src)) →
      (InstallFile env src d opt w).world.fs q = w.fs q := by
  have _ := hcs
  have hd : destOf w src d = Join d (Base src) := by
    unfold destOf
    simp [hdir]
  have hspec := InstallFile_spec env src d opt w (cleanPath_ne_empty hcd)
  rw [hd] at hspec
  obtain ⟨hframe, _, _, _, hsucc⟩ := hspec
  obtain ⟨htmp, hnt, hnd, hcontent⟩ := hsucc hok
  have hd1 : d ≠ tmpPath env (Join d (Base src)) := by
    intro h
    rw [← h, hdir] at hnt
    exact absurd hnt (by simp)
  have hd2 : d ≠ Join d (Base src) := by
    intro h
    rw [← h, hdir] at hnd
    exact absurd hnd (by simp)
  refine ⟨hcontent b hsrc (src_ne_tmp env src d), ?_, htmp, fun q _ h1 h2 => hframe q h2 h1⟩
  unfold isDirAt at hdir ⊢
  rw [hframe d hd1 hd2]
  exact hdir

/-- C2 (witness). The amended redirection at `/a/c.txt` into `/d`. -/
theorem C2_install_file_into_directory_witness :
    (CleanPath "/a/c.txt" = true ∧ CleanPath "/d" = true ∧
      contentAt treeWorld "/a/c.txt" = some [1, 2, 3] ∧ isDirAt treeWorld "/d" = true ∧
      Join "/d" (Base "/a/c.txt") = "/d/c.txt" ∧
      (InstallFile sampleEnv "/a/c.txt" "/d" none treeWorld).err = none) ∧
    (contentAt (InstallFile sampleEnv "/a/c.txt" "/d" none treeWorld).world
        (Join "/d" (Base "/a/c.txt")) = some [1, 2, 3] ∧
      isDirAt (InstallFile sampleEnv "/a/c.txt" "/d" none treeWorld).world "/d" = true ∧
      (InstallFile sampleEnv "/a/c.txt" "/d" none treeWorld).world.fs
        (tmpPath sampleEnv (Join "/d" (Base "/a/c.txt"))) = none ∧
      ∀ q, CleanPath q = true → q ≠ Join "/d" (Base "/a/c.txt") →
        q ≠ tmpPath sampleEnv (Join "/d" (Base "/a/c.txt")) →
        (InstallFile sampleEnv "/a/c.txt" "/d" none treeWorld).world.fs q = treeWorld.fs q) :=
  ⟨by decide,
    C2_install_file_into_directory sampleEnv "/a/c.txt" "/d" none treeWorld [1, 2, 3]
      (by decide) (by decide) (by decide) (by decide) (by decide)⟩

/-- C8 (counterexample). Process 42 is asked to install the missing file
`/d/missing` to `/d/2`; the call returns an error, and the file stored under
the temporary name `/d/2.install.42` is still there afterwards. -/
theorem C8_failure_counterexample :
    CleanPath "/d/missing" = true ∧ CleanPath "/d/2" = true ∧
    tmpPath sampleEnv (destOf staleWorld "/d/missing" "/d/2") = "/d/2.install.42" ∧
    (InstallFile sampleEnv "/d/missing" "/d/2" none staleWorld).err
      = some (Err.readSrcFailed "/d/missing") ∧
    (InstallFile sampleEnv "/d/missing" "/d/2" none staleWorld).world.fs "/d/2.install.42"
      = some (.file [9] 1000 100 0o600) := by
  decide

/-- C8 (amended). Atomicity of `InstallFile`, for clean absolute names, with
`dst` the effective destination and `tmp` the temporary name `dst.install.pid`:
every path other than `tmp` and `dst` is as before, whatever the outcome; when
the call returns an error, `dst` is as before (same node, or still absent);
when that error comes after the temporary file was created (copy, chown,
chmod, rename) and the removal is not refused, nothing is left under `tmp`;
when it comes earlier (identity resolution, stat, open, creation of the
temporary file), the whole file system, `tmp` included, is as before. -/
theorem C8_install_file_failure_atomic (env : Env) (src d : Path) (opt : Option InstallOption)
    (w : World) (hcs : CleanPath src = true) (hcd : CleanPath d = true) :
    (∀ q, CleanPath q = true → q ≠ tmpPath env (destOf w src d) → q ≠ destOf w src d →
        (InstallFile env src d opt w).world.fs q = w.fs q) ∧
    (∀ e, (InstallFile env src d opt w).err = some e →
        (InstallFile env src d opt w).world.fs (destOf w src d) = w.fs (destOf w src d)) ∧
    (∀ e, (InstallFile env src d opt w).err = some e → e.afterCreate = true →
        env.removeFails (tmpPath env (destOf w src d)) = false →
        (InstallFile env src d opt w).world.fs (tmpPath env (destOf w src d)) = none) ∧
    (∀ e, (InstallFile env src d opt w).err = some e → e.afterCreate = false →
        (InstallFile env src d opt w).world.fs = w.fs) := by
  have _ := hcs
  obtain ⟨h1, h2, h3, h4, _⟩ := InstallFile_spec env src d opt w (cleanPath_ne_empty hcd)
  exact ⟨fun q _ => h1 q, h2, h4, h3⟩

/-- C8 (witness). On the device that takes one byte only, process 42 installs
the three-byte file `/d/1` to the free name `/d/2`, with a file already stored
under `/d/2.install.42`: the copy fails; afterwards `/d/2` is still absent,
nothing is left under `/d/2.install.42`, and `/d/1` is as it was. -/
theorem C8_install_file_failure_atomic_witness :
    (CleanPath "/d/1" = true ∧ CleanPath "/d/2" = true ∧
      destOf staleWorld "/d/1" "/d/2" = "/d/2" ∧
      tmpPath smallDiskEnv "/d/2" = "/d/2.install.42" ∧
      (InstallFile smallDiskEnv "/d/1" "/d/2" none staleWorld).err
        = some (Err.copyFailed "/d/1" "/d/2.install.42")) ∧
    (InstallFile smallDiskEnv "/d/1" "/d/2" none staleWorld).world.fs
        (destOf staleWorld "/d/1" "/d/2") = staleWorld.fs (destOf staleWorld "/d/1" "/d/2") ∧
    (InstallFile smallDiskEnv "/d/1" "/d/2" none staleWorld).world.fs
        (tmpPath smallDiskEnv (destOf staleWorld "/d/1" "/d/2")) = none ∧
    (InstallFile smallDiskEnv "/d/1" "/d/2" none staleWorld).world.fs "/d/1"
      = staleWorld.fs "/d/1" :=
  ⟨by decide,
    (C8_install_file_failure_atomic smallDiskEnv "/d/1" "/d/2" none staleWorld
      (by decide) (by decide)).2.1 (Err.copyFailed "/d/1" "/d/2.install.42") (by decide),
    (C8_install_file_failure_atomic smallDiskEnv "/d/1" "/d/2" none staleWorld
      (by decide) (by decide)).2.2.1 (Err.copyFailed "/d/1" "/d/2.install.42") (by decide)
      (by decide) (by decide),
    (C8_install_file_failure_atomic smallDiskEnv "/d/1" "/d/2" none staleWorld
      (by decide) (by decide)).1 "/d/1" (by decide) (by decide) (by decide)⟩

/-- C9. Copy errors are reported by `InstallFile`, for clean absolute names.
When a call gets as far as the copy and the read of the source fails, or the
write of the bytes read to the temporary file fails, `InstallFile` returns the
copy-failure error and makes no rename.  Nothing is left in the output buffer
when the copy ends, so the flush after it writes nothing and cannot fail.  And
whenever a rename is made, it renames the temporary file onto the effective
destination after a copy without a read or write error, and the temporary file
then holds all the bytes that the source holds when the copy starts, which are
the bytes it held before the call unless the source is the temporary file
itself. -/
theorem C9_copy_errors_reported (env : Env) (src d : Path) (opt : Option InstallOption)
    (w : World) (hcs : CleanPath src = true) (hcd : CleanPath d = true) :
    (reachesCopy env src d opt w = true →
      ((fileRead env src (worldAtCopy env src d opt w)).2 = true ∨
        ((fileRead env src (worldAtCopy env src d opt w)).1 ≠ [] ∧
          (fileWrite env (copyTmp env src d opt w)
            (fileRead env src (worldAtCopy env src d opt w)).1
            (worldAtCopy env src d opt w)).2 = true)) →
      (InstallFile env src d opt w).err
        = some (Err.copyFailed src (copyTmp env src d opt w)) ∧
      ∀ a b, Event.rename a b ∉ newLog w (InstallFile env src d opt w).world) ∧
    ((ioCopy env src (copyTmp env src d opt w) (worldAtCopy env src d opt w)).2.1 = [] ∧
      ∀ v, bufFlush env (copyTmp env src d opt w)
        (ioCopy env src (copyTmp env src d opt w) (worldAtCopy env src d opt w)).2.1 v
          = (v, false)) ∧
    (∀ a b, Event.rename a b ∈ newLog w (InstallFile env src d opt w).world →
      reachesCopy env src d opt w = true ∧
      a = copyTmp env src d opt w ∧ b = copyDst env src d opt w ∧
      (fileRead env src (worldAtCopy env src d opt w)).2 = false ∧
      ((fileRead env src (worldAtCopy env src d opt w)).1 ≠ [] →
        (fileWrite env (copyTmp env src d opt w)
          (fileRead env src (worldAtCopy env src d opt w)).1
          (worldAtCopy env src d opt w)).2 = false) ∧
      ∃ c, contentAt (worldAtCopy env src d opt w) src = some c ∧
        contentAt (worldAtRename env src d opt w) (copyTmp env src d opt w) = some c ∧
        (src ≠ copyTmp env src d opt w → contentAt w src = some c)) := by
  have _ := hcs
  have _ := hcd
  obtain ⟨l, hl, hn⟩ := InstallFile_calls env src d opt w
  rw [newLog_append w _ l hl]
  have herr := ioCopy_error env (worldAtCopy env src d opt w) src (copyTmp env src d opt w)
  refine ⟨fun hr hio => ?_, ⟨ioCopy_pending _ _ _ _, fun v => ?_⟩, fun a b hab => ?_⟩
  · have hcp := herr.2 hio
    refine ⟨?_, fun a b hab => ?_⟩
    · rw [(InstallFile_reached env src d opt w hr).1]
      simp [installFileBody, hcp]
    · have := (hn a b hab).2.2.2
      rw [hcp] at this
      simp at this
  · rw [ioCopy_pending, bufFlush_nil]
  · obtain ⟨hr, e1, e2, hok⟩ := hn a b hab
    have hno : ¬ ((fileRead env src (worldAtCopy env src d opt w)).2 = true ∨
        ((fileRead env src (worldAtCopy env src d opt w)).1 ≠ [] ∧
          (fileWrite env (copyTmp env src d opt w)
            (fileRead env src (worldAtCopy env src d opt w)).1
            (worldAtCopy env src d opt w)).2 = true)) := by
      intro h
      have := herr.2 h
      rw [hok] at this
      simp at this
    simp only [not_or, Bool.not_eq_true, not_and] at hno
    obtain ⟨c, hc1, hc2⟩ := rename_content env src d opt w hr hok
    refine ⟨hr, e1, e2, hno.1, hno.2, c, hc1, hc2, fun hne => ?_⟩
    rw [← hc1]
    unfold contentAt worldAtCopy
    rw [osCreate_ne env _ hne, osOpen_fs, osStat_fs, prepare_fs]

/-- C9 (witness). Process 42 installs the three-byte file `/d/1` to `/d/2` on
the device that takes one byte only: the write to the temporary file fails,
the call returns the copy-failure error, no rename is made and `/d/2` stays
absent.  With a source that cannot be read beyond its second byte the call
returns the same error. -/
theorem C9_copy_errors_reported_witness :
    (CleanPath "/d/1" = true ∧ CleanPath "/d/2" = true ∧
      reachesCopy smallDiskEnv "/d/1" "/d/2" none plainWorld = true ∧
      copyTmp smallDiskEnv "/d/1" "/d/2" none plainWorld = "/d/2.install.42" ∧
      (fileWrite smallDiskEnv "/d/2.install.42" [1, 2, 3]
        (worldAtCopy smallDiskEnv "/d/1" "/d/2" none plainWorld)).2 = true ∧
      (InstallFile smallDiskEnv "/d/1" "/d/2" none plainWorld).world.fs "/d/2" = none ∧
      (InstallFile badSourceEnv "/d/1" "/d/2" none plainWorld).err
        = some (Err.copyFailed "/d/1" "/d/2.install.42")) ∧
    ((InstallFile smallDiskEnv "/d/1" "/d/2" none plainWorld).err
        = some (Err.copyFailed "/d/1" (copyTmp smallDiskEnv "/d/1" "/d/2" none plainWorld)) ∧
      ∀ a b, Event.rename a b
        ∉ newLog plainWorld (InstallFile smallDiskEnv "/d/1" "/d/2" none plainWorld).world) :=
  ⟨by decide,
    (C9_copy_errors_reported smallDiskEnv "/d/1" "/d/2" none plainWorld
      (by decide) (by decide)).1 (by decide) (Or.inr (by decide))⟩

/-! ## The claims about `InstallDir` -/

/-- C3 (evaluation). With umask 022 and mode 0777, `InstallDir` of `/x/y/z`
(none of `/x`, `/x/y`, `/x/y/z` present, `/` a directory) returns no error and
all three are directories of uid 1000 and gid 100; the leaf `/x/y/z` has
permission bits 0777, the created ancestors `/x` and `/x/y` have 0755: they are
made by `Mkdir`, which takes the umask off, and unlike the leaf they are not
given a `Chmod`. -/
theorem C3_ancestors_mode_minus_umask :
    CleanPath "/x/y/z" = true ∧
    plainWorld.fs "/x" = none ∧ plainWorld.fs "/x/y" = none ∧ plainWorld.fs "/x/y/z" = none ∧
    isDirAt plainWorld "/" = true ∧
    (InstallDir sampleEnv 8 "/x/y/z" (some openModeOption) plainWorld).map (fun r =>
      (r.err, r.world.fs "/x", r.world.fs "/x/y", r.world.fs "/x/y/z"))
      = some (none, some (.dir 1000 100 0o755), some (.dir 1000 100 0o755),
          some (.dir 1000 100 0o777)) ∧
    (InstallDir sampleEnv 8 "/x/y/z" (some openModeOption) plainWorld).map (fun r =>
      (decide (Event.chmod "/x/y/z" 0o777 ∈ r.world.log),
        decide (Event.chmod "/x/y" 0o777 ∈ r.world.log),
        decide (Event.chmod "/x" 0o777 ∈ r.world.log)))
      = some (true, false, false) := by
  decide

/-- What `InstallDir` does in general, for a clean absolute name: when the last
`k ≥ 1` components of `dst` are absent and the `k`th parent is a directory, the
call returns (the recursion needs no more than `k` levels), and when it returns
no error the leaf `dst` is a directory with exactly the permission bits of the
mode (0755 when the option has none), every created ancestor is a directory
with the permission bits of the mode minus the umask, and all of them are
directories of the process given to the resolved uid and gid by `chown`. -/
theorem InstallDir_creates_ancestors (env : Env) (fuel : Nat) (dst : Path)
    (opt : Option InstallOption) (w : World) (k : Nat)
    (hc : CleanPath dst = true) (hk : 1 ≤ k) (hfuel : k ≤ fuel)
    (habs : ∀ i, i < k → w.fs (Dir^[i] dst) = none)
    (hdir : isDirAt w (Dir^[k] dst) = true) :
    ∃ r, InstallDir env fuel dst opt w = some r ∧
      (r.err = none →
        r.world.fs dst = some (.dir (chownId (resolvedOption env opt w).UIDInt env.euid)
          (chownId (resolvedOption env opt w).GIDInt env.egid) (Perm (dirMode opt))) ∧
        ∀ i, 1 ≤ i → i < k →
          r.world.fs (Dir^[i] dst)
            = some (.dir (chownId (resolvedOption env opt w).UIDInt env.euid)
              (chownId (resolvedOption env opt w).GIDInt env.egid)
              (createPerm env (dirMode opt)))) := by
  have _ := hc
  have hpr := prepare_fs env (opt.getD InstallOption.zero) w
  have hmode := prepare_mode env (opt.getD InstallOption.zero) w
  unfold InstallDir
  simp only
  cases hperr : (Prepare env (opt.getD InstallOption.zero) w).2.2 with
  | some e => exact ⟨_, rfl, fun h => by simp at h⟩
  | none =>
    simp only
    obtain ⟨j, rfl⟩ : ∃ j, k = j + 1 := ⟨k - 1, by omega⟩
    obtain ⟨w1, e1, hrec, hframe, hdirs⟩ := mkdirRec_chain env
      ((Prepare env (opt.getD InstallOption.zero) w).2.1.Mode.getD defaultModeDir)
      (Atoi (Prepare env (opt.getD InstallOption.zero) w).2.1.UID)
      (Atoi (Prepare env (opt.getD InstallOption.zero) w).2.1.GID)
      j fuel (Dir dst) (Prepare env (opt.getD InstallOption.zero) w).1 (Dir_ne_empty dst)
      (by omega)
      (by
        intro i hi
        rw [hpr, ← Function.iterate_succ_apply]
        exact habs (i + 1) (by omega))
      (by
        unfold isDirAt at hdir ⊢
        rw [hpr, ← Function.iterate_succ_apply]
        exact hdir)
    simp only [InstallOption.UIDInt, InstallOption.GIDInt]
    rw [hrec]
    cases e1 with
    | some e => exact ⟨_, rfl, fun h => by simp at h⟩
    | none =>
      simp only
      refine ⟨_, rfl, fun hok => ?_⟩
      simp only at hok
      have hne : ∀ i, 1 ≤ i → i < j + 1 → Dir^[i] dst ≠ dst := by
        intro i hi1 hi2 heq
        have hcyc := parent_cycle dst i (j + 1) heq
        have hlt : (j + 1) % i < j + 1 := lt_of_lt_of_le (Nat.mod_lt _ (by omega)) (by omega)
        have h0 := habs ((j + 1) % i) hlt
        unfold isDirAt at hdir
        rw [hcyc, h0] at hdir
        simp at hdir
      have hw1 : w1.fs dst = none := by
        rw [hframe dst (fun i hi heq => hne (i + 1) (by omega) (by omega)
          (by rw [Function.iterate_succ_apply]; exact heq.symm)), hpr]
        simpa using habs 0 (by omega)
      obtain ⟨u, g, hown, hleaf⟩ := installDirLeaf_ok env dst _ _ w1 hok
      obtain ⟨rfl, rfl⟩ := hown hw1
      refine ⟨?_, ?_⟩
      · rw [hleaf]
        simp [resolvedOption, dirMode, InstallOption.UIDInt, InstallOption.GIDInt, hmode]
      · intro i hi1 hi2
        rw [installDirLeaf_ne env dst _ _ w1 (hne i hi1 hi2)]
        obtain ⟨i', rfl⟩ : ∃ i', i = i' + 1 := ⟨i - 1, by omega⟩
        rw [Function.iterate_succ_apply]
        have := hdirs rfl i' (by omega)
        rw [this]
        simp [resolvedOption, dirMode, InstallOption.UIDInt, InstallOption.GIDInt, hmode]

/-- Repeating `InstallDir` with an option that names no owner and no group (or
with nil), for a clean absolute name: when the first call returns no error, the
destination is a directory given to the resolved owner by `chown` (from the
owner `u`, `g` it had before) and with the mode, and the second call, made on
the world and the option the first one left, returns no error, leaves the
option and the file system as they are, and makes no directory. -/
theorem InstallDir_again (env : Env) (fuel : Nat) (dst : Path) (opt : Option InstallOption)
    (w : World) (r1 : Ret) (hc : CleanPath dst = true)
    (hnames : ∀ o, opt = some o → o.Owner = "" ∧ o.Group = "")
    (h1 : InstallDir env fuel dst opt w = some r1) (hok : r1.err = none) :
    (∃ u g, r1.world.fs dst = some (.dir (chownId (resolvedOption env opt w).UIDInt u)
      (chownId (resolvedOption env opt w).GIDInt g) (Perm (dirMode opt)))) ∧
    ∃ r2, InstallDir env fuel dst r1.opt r1.world = some r2 ∧ r2.err = none ∧
      r2.opt = r1.opt ∧ r2.world.fs = r1.world.fs ∧
      ∃ l, r2.world.log = r1.world.log ++ l ∧ ∀ p k, Event.mkdir p k ∉ l := by
  have _ := hc
  have hmode := prepare_mode env (opt.getD InstallOption.zero) w
  unfold InstallDir at h1
  simp only at h1
  cases hperr : (Prepare env (opt.getD InstallOption.zero) w).2.2 with
  | some e =>
    rw [hperr] at h1
    simp only [Option.some.injEq] at h1
    subst h1
    simp at hok
  | none =>
    rw [hperr] at h1
    simp only at h1
    rcases hrec : mkdirRec env fuel (Dir dst)
        ((Prepare env (opt.getD InstallOption.zero) w).2.1.Mode.getD defaultModeDir)
        (InstallOption.UIDInt { (Prepare env (opt.getD InstallOption.zero) w).2.1 with
          Mode := some ((Prepare env (opt.getD InstallOption.zero) w).2.1.Mode.getD defaultModeDir) })
        (InstallOption.GIDInt { (Prepare env (opt.getD InstallOption.zero) w).2.1 with
          Mode := some ((Prepare env (opt.getD InstallOption.zero) w).2.1.Mode.getD defaultModeDir) })
        (Prepare env (opt.getD InstallOption.zero) w).1 with _ | ⟨w1, e1⟩
    · rw [hrec] at h1; simp at h1
    · rw [hrec] at h1
      cases e1 with
      | some e =>
        simp only [Option.some.injEq] at h1
        subst h1
        simp at hok
      | none =>
        simp only [Option.some.injEq] at h1
        subst h1
        simp only at hok ⊢
        have hfuel : 1 ≤ fuel := by
          cases fuel with
          | zero => simp [mkdirRec] at hrec
          | succ f => omega
        obtain ⟨g1, g2, g3⟩ := mkdirRec_ok env fuel _ _ _ _ _ w1 hrec
        obtain ⟨u, g, _, hleaf⟩ := installDirLeaf_ok env dst _ _ w1 hok
        obtain ⟨e0, e1, e2, e3⟩ := installDirLeaf_ok_env env dst _ _ w1 hok
        refine ⟨⟨u, g, ?_⟩, ?_⟩
        · rw [hleaf]
          simp [resolvedOption, dirMode, InstallOption.UIDInt, InstallOption.GIDInt, hmode]
        · obtain ⟨p1, p2, p3, l0, p4, p5⟩ := prepare_second env opt w
            (installDirLeaf env dst { (Prepare env (opt.getD InstallOption.zero) w).2.1 with
              Mode := some ((Prepare env (opt.getD InstallOption.zero) w).2.1.Mode.getD
                defaultModeDir) }
              ((Prepare env (opt.getD InstallOption.zero) w).2.1.Mode.getD defaultModeDir) w1).1
            hnames hperr
          have hpfs := prepare_fs env ((opt.map (fun _ =>
            ({ (Prepare env (opt.getD InstallOption.zero) w).2.1 with
              Mode := some ((Prepare env (opt.getD InstallOption.zero) w).2.1.Mode.getD
                defaultModeDir) } : InstallOption))).getD InstallOption.zero)
            (installDirLeaf env dst { (Prepare env (opt.getD InstallOption.zero) w).2.1 with
              Mode := some ((Prepare env (opt.getD InstallOption.zero) w).2.1.Mode.getD
                defaultModeDir) }
              ((Prepare env (opt.getD InstallOption.zero) w).2.1.Mode.getD defaultModeDir) w1).1
          unfold InstallDir
          simp only [p1, p2, p3]
          -- the parent is a directory in the world the first call left
          have hparent : isDirAt (Prepare env ((opt.map (fun _ =>
              ({ (Prepare env (opt.getD InstallOption.zero) w).2.1 with
                Mode := some ((Prepare env (opt.getD InstallOption.zero) w).2.1.Mode.getD
                  defaultModeDir) } : InstallOption))).getD InstallOption.zero)
              (installDirLeaf env dst { (Prepare env (opt.getD InstallOption.zero) w).2.1 with
                Mode := some ((Prepare env (opt.getD InstallOption.zero) w).2.1.Mode.getD
                  defaultModeDir) }
                ((Prepare env (opt.getD InstallOption.zero) w).2.1.Mode.getD defaultModeDir)
                w1).1).1 (Dir dst) = true := by
            unfold isDirAt at g1 ⊢
            rw [hpfs]
            by_cases hd : Dir dst = dst
            · rw [hd, hleaf]; rfl
            · rw [installDirLeaf_ne env dst _ _ w1 hd]; exact g1
          rw [mkdirRec_settled env fuel (Dir dst) _ _ _ _ hfuel g3 hparent g2]
          simp only
          obtain ⟨s1, s2, s3⟩ := installDirLeaf_settled env dst
            { (Prepare env (opt.getD InstallOption.zero) w).2.1 with
              Mode := some ((Prepare env (opt.getD InstallOption.zero) w).2.1.Mode.getD
                defaultModeDir) }
            ((Prepare env (opt.getD InstallOption.zero) w).2.1.Mode.getD defaultModeDir)
            ((Prepare env ((opt.map (fun _ =>
              ({ (Prepare env (opt.getD InstallOption.zero) w).2.1 with
                Mode := some ((Prepare env (opt.getD InstallOption.zero) w).2.1.Mode.getD
                  defaultModeDir) } : InstallOption))).getD InstallOption.zero)
              (installDirLeaf env dst { (Prepare env (opt.getD InstallOption.zero) w).2.1 with
                Mode := some ((Prepare env (opt.getD InstallOption.zero) w).2.1.Mode.getD
                  defaultModeDir) }
                ((Prepare env (opt.getD InstallOption.zero) w).2.1.Mode.getD defaultModeDir)
                w1).1).1.record (Event.stat (Dir dst)))
            u g e0 (by rw [record_fs, hpfs]; exact hleaf) e1 e2 e3
          refine ⟨_, rfl, s1, ?_, ?_, ?_⟩
          · cases opt <;> rfl
          · rw [s2, record_fs, hpfs]
          · refine ⟨l0 ++ [Event.stat (Dir dst)] ++ [Event.stat dst,
              Event.chown dst (InstallOption.UIDInt ({ (Prepare env (opt.getD InstallOption.zero) w).2.1 with
                Mode := some ((Prepare env (opt.getD InstallOption.zero) w).2.1.Mode.getD
                  defaultModeDir) } : InstallOption))
                (InstallOption.GIDInt ({ (Prepare env (opt.getD InstallOption.zero) w).2.1 with
                Mode := some ((Prepare env (opt.getD InstallOption.zero) w).2.1.Mode.getD
                  defaultModeDir) } : InstallOption)),
              Event.chmod dst
                ((Prepare env (opt.getD InstallOption.zero) w).2.1.Mode.getD defaultModeDir)],
              ?_, ?_⟩
            · rw [s3]
              simp only [World.record, p4, List.append_assoc]
            · intro p k
              simp [p5 p k]

/-- C7 (evaluation). `InstallDir` of `/x` with an option that names owner
`alice` returns no error and leaves the option resolved in place (`UID` set);
the second call with that option fails in `Prepare` with the conflict of
`Owner` and `UID`.  (For an option without names the second call succeeds:
`InstallDir_again`.) -/
theorem C7_second_call_conflict :
    (InstallDir sampleEnv 8 "/x" (some aliceOption) plainWorld).map (fun r => (r.err, r.opt))
      = some (none, some aliceResolved) ∧
    ((InstallDir sampleEnv 8 "/x" (some aliceOption) plainWorld).bind
        (fun r => InstallDir sampleEnv 8 "/x" r.opt r.world)).map (fun r => r.err)
      = some (some (Err.invalidOption Err.conflictOwnerUID)) := by
  decide

/-! ## The claims about `Prepare` -/

/-- C4. Conflict detection: for an option whose `Owner` and `UID` are both
non-empty, `Prepare` returns the error "conflict: Owner and UID" and leaves the
option and the world (file system and call log, so no lookup was made) as they
were; `InstallFile` and `InstallDir` with such an option return that error
wrapped as an invalid option, again with the world and the option unchanged:
no file, directory, chown, chmod or rename was attempted. -/
theorem C4_conflict_owner_uid (env : Env) (fuel : Nat) (src d : Path) (opt : InstallOption)
    (w : World) (hO : opt.Owner ≠ "") (hU : opt.UID ≠ "") :
    Prepare env opt w = (w, opt, some Err.conflictOwnerUID) ∧
    InstallFile env src d (some opt) w
      = ⟨w, some opt, some (Err.invalidOption Err.conflictOwnerUID)⟩ ∧
    InstallDir env fuel d (some opt) w
      = some ⟨w, some opt, some (Err.invalidOption Err.conflictOwnerUID)⟩ := by
  have hp : Prepare env opt w = (w, opt, some Err.conflictOwnerUID) := by
    simp [Prepare, prepareNames, prepareOwner, hO, hU]
  refine ⟨hp, ?_, ?_⟩
  · simp [InstallFile, hp]
  · simp [InstallDir, hp]

/-- C4 (witness). Conflict detection at an option with owner `alice` and uid
`7`. -/
theorem C4_conflict_owner_uid_witness :
    (conflictOption.Owner ≠ "" ∧ conflictOption.UID ≠ "") ∧
    (Prepare sampleEnv conflictOption staleWorld
        = (staleWorld, conflictOption, some Err.conflictOwnerUID) ∧
      InstallFile sampleEnv "/d/1" "/d/2" (some conflictOption) staleWorld
        = ⟨staleWorld, some conflictOption, some (Err.invalidOption Err.conflictOwnerUID)⟩ ∧
      InstallDir sampleEnv 8 "/x/y" (some conflictOption) staleWorld
        = some ⟨staleWorld, some conflictOption,
            some (Err.invalidOption Err.conflictOwnerUID)⟩) :=
  ⟨by decide, C4_conflict_owner_uid sampleEnv 8 "/d/1" "/x/y" conflictOption staleWorld
    (by decide) (by decide)⟩

/-- C5 (evaluation). The user directory knows `alice` with uid 1001 and gid
2001.  `Prepare` on an option that names owner `alice` returns no error and
stores "2001", the group id of the record, in `UID`; a file installed with that
option is owned by uid 2001.  In general a successful `Prepare` stores the
non-empty `Gid` of the looked-up user in `UID`; it stores the non-empty `Gid`
of the looked-up group in `GID`; and it fails when the lookup of a named owner
or of a named group fails. -/
theorem C5_owner_lookup_stores_group_id :
    (sampleEnv.lookupUser "alice" = some ⟨"1001", "2001"⟩ ∧
      (Prepare sampleEnv aliceOption plainWorld).2.2 = none ∧
      (Prepare sampleEnv aliceOption plainWorld).2.1.UID = "2001" ∧
      (InstallFile sampleEnv "/d/1" "/d/2" (some aliceOption) plainWorld).err = none ∧
      (InstallFile sampleEnv "/d/1" "/d/2" (some aliceOption) plainWorld).world.fs "/d/2"
        = some (.file [1, 2, 3] 2001 100 0o644)) ∧
    (∀ (env : Env) (opt : InstallOption) (w : World) (u : User),
      opt.Owner ≠ "" → opt.UID = "" → env.lookupUser opt.Owner = some u → u.Gid ≠ "" →
      (Prepare env opt w).2.2 = none → (Prepare env opt w).2.1.UID = u.Gid) ∧
    (∀ (env : Env) (opt : InstallOption) (w : World) (g : Group),
      opt.Group ≠ "" → opt.GID = "" → env.lookupGroup opt.Group = some g → g.Gid ≠ "" →
      (Prepare env opt w).2.2 = none → (Prepare env opt w).2.1.GID = g.Gid) ∧
    (∀ (env : Env) (opt : InstallOption) (w : World),
      opt.Owner ≠ "" → env.lookupUser opt.Owner = none → (Prepare env opt w).2.2 ≠ none) ∧
    (∀ (env : Env) (opt : InstallOption) (w : World),
      opt.Group ≠ "" → env.lookupGroup opt.Group = none → (Prepare env opt w).2.2 ≠ none) := by
  refine ⟨by decide, ?_, ?_, ?_, ?_⟩
  · intro env opt w u hO hU hl hg hok
    have hn : prepareNames env opt w =
        prepareGroup env { opt with UID := u.Gid } (w.record (.lookupUser opt.Owner)) := by
      simp [prepareNames, prepareOwner, hO, hU, hl]
    unfold Prepare at hok ⊢
    rw [hn] at hok ⊢
    have hg1 := prepareGroup_opt env { opt with UID := u.Gid } (w.record (.lookupUser opt.Owner))
    rcases hp : prepareGroup env { opt with UID := u.Gid } (w.record (.lookupUser opt.Owner))
      with ⟨w2, o2, e2⟩
    rw [hp] at hok hg1
    cases e2 with
    | some e => simp at hok
    | none =>
      simp only at hok hg1 ⊢
      have h2 : o2.UID = u.Gid := (hg1 trivial).1
      unfold prepareFallback at hok ⊢
      split
      · exact h2
      · split
        · simp_all
        · simp [h2, hg]
          split <;> simp [h2]
  · intro env opt w g hG hI hl hg hok
    exact prepare_group_lookup env opt w g hG hI hl hg hok
  · intro env opt w hO hl
    exact (prepare_lookup_fails env opt w).1 hO hl
  · intro env opt w hG hl
    exact (prepare_lookup_fails env opt w).2 hG hl

/-- C6 (counterexample). The caller supplies the `UID` `abc` (and the `GID`
`1`).  `Prepare` returns no error and leaves `UID` as it is; `abc` is the
decimal numeral of no id, and `UIDInt` turns it into 0: a file installed with
this option is chowned with uid 0.  And with the `UID` `9223372036854775808`,
the numeral of `2 ^ 63`, `Prepare` returns no error and `UIDInt` returns
`2 ^ 63 - 1`. -/
theorem C6_word_uid_counterexample :
    (Prepare sampleEnv hugeOption plainWorld).2.2 = none ∧
    (Prepare sampleEnv hugeOption plainWorld).2.1.UID = toString (9223372036854775808 : Nat) ∧
    (Prepare sampleEnv hugeOption plainWorld).2.1.UIDInt = 9223372036854775807 ∧
    (Prepare sampleEnv wordOption plainWorld).2.2 = none ∧
    (Prepare sampleEnv wordOption plainWorld).2.1.UID = "abc" ∧
    (∀ n : Nat, toString n ≠ (Prepare sampleEnv wordOption plainWorld).2.1.UID) ∧
    (Prepare sampleEnv wordOption plainWorld).2.1.UIDInt = 0 ∧
    (InstallFile sampleEnv "/d/1" "/d/2" (some wordOption) plainWorld).err = none ∧
    Event.chown "/d/2.install.42" 0 1
      ∈ (InstallFile sampleEnv "/d/1" "/d/2" (some wordOption) plainWorld).world.log ∧
    (InstallFile sampleEnv "/d/1" "/d/2" (some wordOption) plainWorld).world.fs "/d/2"
      = some (.file [1, 2, 3] 0 1 0o644) := by
  refine ⟨by decide, by decide, by decide, by decide, by decide, ?_, by decide, by decide,
    by decide, by decide⟩
  intro n h
  have hu : (Prepare sampleEnv wordOption plainWorld).2.1.UID = "abc" := by decide
  rw [hu] at h
  exact numeral_no_letter n (by rw [h]; decide)

/-- C6 (amended). Resolved identity after `Prepare`, the identity of the
process carrying a non-empty uid and gid.  When `Prepare` returns no error,
`UID` and `GID` are non-empty, and where they are the decimal numerals of ids
below `2 ^ 63` those ids are what `UIDInt` and `GIDInt` return for chown; a
`UID` or `GID` the caller supplied is unchanged, numeral or not, and each one
still empty after name resolution holds the uid, respectively gid, of the
process.  When name
resolution leaves both set, `Prepare` returns what name resolution returned,
without a call of `user.Current`.  When name resolution leaves one unset and
`user.Current` fails, `Prepare` fails. -/
theorem C6_prepare_resolved_identity (env : Env) (opt : InstallOption) (w : World)
    (hC : ∀ u, env.currentUser = some u → u.Uid ≠ "" ∧ u.Gid ≠ "") :
    ((Prepare env opt w).2.2 = none →
      (Prepare env opt w).2.1.UID ≠ "" ∧ (Prepare env opt w).2.1.GID ≠ "" ∧
      (∀ n : Nat, n < 2 ^ 63 → (Prepare env opt w).2.1.UID = toString n →
        (Prepare env opt w).2.1.UIDInt = (n : Int)) ∧
      (∀ n : Nat, n < 2 ^ 63 → (Prepare env opt w).2.1.GID = toString n →
        (Prepare env opt w).2.1.GIDInt = (n : Int)) ∧
      (opt.UID ≠ "" → (Prepare env opt w).2.1.UID = opt.UID) ∧
      (opt.GID ≠ "" → (Prepare env opt w).2.1.GID = opt.GID) ∧
      ((prepareNames env opt w).2.1.UID = "" →
        ∃ u, env.currentUser = some u ∧ (Prepare env opt w).2.1.UID = u.Uid) ∧
      ((prepareNames env opt w).2.1.GID = "" →
        ∃ u, env.currentUser = some u ∧ (Prepare env opt w).2.1.GID = u.Gid)) ∧
    ((prepareNames env opt w).2.2 = none →
      (prepareNames env opt w).2.1.UID ≠ "" → (prepareNames env opt w).2.1.GID ≠ "" →
      Prepare env opt w = prepareNames env opt w ∧
      ∃ l, (Prepare env opt w).1.log = w.log ++ l ∧ Event.currentUser ∉ l) ∧
    (((prepareNames env opt w).2.1.UID = "" ∨ (prepareNames env opt w).2.1.GID = "") →
      env.currentUser = none →
      (Prepare env opt w).2.2 ≠ none ∧
      ((prepareNames env opt w).2.2 = none →
        (Prepare env opt w).2.2 = some Err.currentUserFailed)) := by
  have hlog := prepareNames_log env opt w
  have hopt := prepareNames_opt env opt w
  have hnum : ∀ o : InstallOption,
      (∀ n : Nat, n < 2 ^ 63 → o.UID = toString n → o.UIDInt = (n : Int)) ∧
      (∀ n : Nat, n < 2 ^ 63 → o.GID = toString n → o.GIDInt = (n : Int)) := by
    intro o
    refine ⟨fun n hn he => ?_, fun n hn he => ?_⟩
    · unfold InstallOption.UIDInt; rw [he]; exact Atoi_toString n hn
    · unfold InstallOption.GIDInt; rw [he]; exact Atoi_toString n hn
  unfold Prepare
  rcases hp : prepareNames env opt w with ⟨w1, o1, e⟩
  rw [hp] at hlog hopt
  cases e with
  | some e => simp
  | none =>
    simp only at hlog hopt ⊢
    obtain ⟨k1, k2⟩ := hopt trivial
    refine ⟨fun h => ?_, fun _ hu hg => ?_, fun hor hc => ?_⟩
    · obtain ⟨f1, f2, f3, f4, f5, f6⟩ := prepareFallback_opt env o1 w1 hC h
      refine ⟨f1, f2, (hnum _).1, (hnum _).2, fun hu => ?_, fun hg => ?_, f5, f6⟩
      · rw [f3 (by rw [k1 hu]; exact hu), k1 hu]
      · rw [f4 (by rw [k2 hg]; exact hg), k2 hg]
    · have : prepareFallback env o1 w1 = (w1, o1, none) := by
        simp [prepareFallback, hu, hg]
      rw [this]
      exact ⟨rfl, hlog⟩
    · have hf : (prepareFallback env o1 w1).2.2 = some Err.currentUserFailed := by
        unfold prepareFallback
        rcases hor with hu | hg
        · simp [hu, hc]
        · simp [hg, hc]
      exact ⟨by rw [hf]; simp, fun _ => hf⟩

/-- C6 (witness). The zero option in the sample environment: both ids come
from the identity of the process, uid 1000 and gid 100. -/
theorem C6_prepare_resolved_identity_witness :
    (∀ u, sampleEnv.currentUser = some u → u.Uid ≠ "" ∧ u.Gid ≠ "") ∧
    (Prepare sampleEnv InstallOption.zero plainWorld).2.2 = none ∧
    (Prepare sampleEnv InstallOption.zero plainWorld).2.1.UID = "1000" ∧
    (Prepare sampleEnv InstallOption.zero plainWorld).2.1.GID = "100" ∧
    ((Prepare sampleEnv InstallOption.zero plainWorld).2.2 = none →
      (Prepare sampleEnv InstallOption.zero plainWorld).2.1.UID ≠ "" ∧
      (Prepare sampleEnv InstallOption.zero plainWorld).2.1.GID ≠ "" ∧
      (Prepare sampleEnv InstallOption.zero plainWorld).2.1.UIDInt = 1000) :=
  ⟨by intro u hu; simp only [sampleEnv, Option.some.injEq] at hu; subst hu; decide,
    by decide, by decide, by decide,
    fun h => ⟨((C6_prepare_resolved_identity sampleEnv InstallOption.zero plainWorld
        (by intro u hu; simp only [sampleEnv, Option.some.injEq] at hu; subst hu; decide)).1 h).1,
      ((C6_prepare_resolved_identity sampleEnv InstallOption.zero plainWorld
        (by intro u hu; simp only [sampleEnv, Option.some.injEq] at hu; subst hu; decide)).1 h).2.1,
      ((C6_prepare_resolved_identity sampleEnv InstallOption.zero plainWorld
        (by intro u hu; simp only [sampleEnv, Option.some.injEq] at hu; subst hu; decide)).1
          h).2.2.1 1000 (by norm_num) (by decide)⟩⟩

/-! ## The claim about the command line -/

/-- C10 (evaluation). The command line `-d /d/1`, where `/d/1` is a regular
file: `InstallDir` returns the error that `/d/1` exists and is not a directory,
and the program ends with exit status 0.  In file mode a failing installation
(the missing source `/d/missing`) ends the program with a nonzero status. -/
theorem C10_directory_mode_exit_status :
    (InstallDir sampleEnv 8 "/d/1" (some InstallOption.zero)
        (plainWorld.record (Event.callInstallDir "/d/1"))).map (fun r => r.err)
      = some (some (Err.notADirectory "/d/1")) ∧
    (main sampleEnv 8 ⟨"", "", "", true, ["/d/1"]⟩ plainWorld).map (fun r => r.2) = some 0 ∧
    (main sampleEnv 8 ⟨"", "", "", false, ["/d/missing", "/d/2"]⟩ plainWorld).map (fun r => r.2)
      = some 255 := by
  decide

end Install
